import Mathlib

/-!
Verification of the History Trends Unlimited analysis-export visit codec
(`extensions/historytrends/analysis_export.go`).

The development shallowly embeds the codec: instants are integers counting
nanoseconds since the Unix epoch (mirroring Go `time.Time`), durations are
integers clamped to the `int64` range (mirroring Go `time.Duration`), and
fallible operations return `Except GoErr`.  Calendar arithmetic mirrors the
algorithms of Go's `time` package (cycle-stripping year extraction with the
leap year at the end of each 4/100/400-year cycle, anchored at year 1, and
the `daysBefore` month table).  External collaborators (`net/url`,
`publicsuffix`, the transition codec, `timefmt`, the title normalizer) are
modelled to the fidelity the codec exercises; each model's doc comment
states its source.
-/

set_option maxHeartbeats 4000000

namespace HistoryTrends

/-- Nanoseconds per millisecond. -/
def nsPerMilli : Int := 1000000

/-- Nanoseconds per second (Go `time.Second`). -/
def nsPerSecond : Int := 1000000000

/-- Nanoseconds per day. -/
def nsPerDay : Int := 86400000000000

/-- Go `time.Time{}` (January 1, year 1, 00:00:00 UTC) as nanoseconds since
the Unix epoch. -/
def goZeroTime : Int := -62135596800000000000

/-- Model of Go `time.Time.Truncate(time.Millisecond)`: rounds an instant
down to a multiple of one millisecond (the zero-time anchor used by Go is
itself a multiple of a millisecond, so flooring in epoch coordinates
coincides with Go's rounding since the zero time). -/
def goTruncMilli (t : Int) : Int := t - t % 1000000

/-- Model of Go `time.Time.Sub`: the difference of two instants as a
`time.Duration`, saturating at the `int64` bounds exactly as Go documents. -/
def goSub (t u : Int) : Int :=
  if t - u < -9223372036854775808 then -9223372036854775808
  else if 9223372036854775807 < t - u then 9223372036854775807
  else t - u

/-- Model of Go `time.Time.Weekday` on an instant: 0 is Sunday; the Unix
epoch (January 1, 1970) was a Thursday (= 4). -/
def goWeekday (t : Int) : Int := (t / 86400000000000 + 4) % 7

/-- Model of Go `isLeap` from the `time` package. -/
def isLeap (y : Int) : Bool := y % 4 == 0 && (y % 100 != 0 || y % 400 == 0)

/-- Model of the `daysBefore` table of Go's `time` package: cumulative days
in a non-leap year before civil month `m` (1 = January); `daysBefore 13`
is the length 365 of a non-leap year. -/
def daysBefore (m : Int) : Int :=
  if m ≤ 1 then 0
  else if m ≤ 2 then 31
  else if m ≤ 3 then 59
  else if m ≤ 4 then 90
  else if m ≤ 5 then 120
  else if m ≤ 6 then 151
  else if m ≤ 7 then 181
  else if m ≤ 8 then 212
  else if m ≤ 9 then 243
  else if m ≤ 10 then 273
  else if m ≤ 11 then 304
  else if m ≤ 12 then 334
  else 365

/-- Days in civil month `m` of year `y` (Go `daysIn`). -/
def daysInMonth (y m : Int) : Int :=
  if m = 2 then (if isLeap y then 29 else 28)
  else if m = 4 ∨ m = 6 ∨ m = 9 ∨ m = 11 then 30
  else 31

/-- Days from January 1 of year 1 to January 1 of year `y`, by the
cycle-stripping computation of Go's `daysSinceEpoch` (digits of `y - 1` in
the mixed radix 400/100/4 weighted by the cycle lengths). -/
def daysFromYear (y : Int) : Int :=
  let y1 := y - 1
  let n400 := y1 / 400
  let r400 := y1 - 400 * n400
  let n100 := r400 / 100
  let r100 := r400 - 100 * n100
  let n4 := r100 / 4
  let n1 := r100 - 4 * n4
  146097 * n400 + 36524 * n100 + 1461 * n4 + 365 * n1

/-- Epoch day (days since 1970-01-01) of the civil date `y-m-d`, mirroring
Go `time.Date`'s day computation: year days, the `daysBefore` table, a leap
day when past February of a leap year. -/
def daysFromCivil (y m d : Int) : Int :=
  daysFromYear y + daysBefore m + (if 2 < m ∧ isLeap y = true then 1 else 0) +
    (d - 1) - 719162

/-- Year and 0-based day-of-year of a day count since January 1 of year 1,
mirroring Go `absDate`'s cascade: strip 400-year cycles, then up to three
100-year cycles, then 4-year cycles, then up to three single years (the
capped quotients put the leap year at the end of each cycle). -/
def yearAndYday (d1 : Int) : Int × Int :=
  let n400 := d1 / 146097
  let r1 := d1 - 146097 * n400
  let c := r1 / 36524
  let n100 := c - c / 4
  let r2 := r1 - 36524 * n100
  let n4 := r2 / 1461
  let r3 := r2 - 1461 * n4
  let f := r3 / 365
  let n1 := f - f / 4
  (1 + 400 * n400 + 100 * n100 + 4 * n4 + n1, r3 - 365 * n1)

/-- Month and day-of-month from a 0-based day of year, mirroring Go
`absDate`: special-case February 29, collapse the leap day out of the
offset, then locate the month with an estimate `yday / 31` corrected by the
`daysBefore` table. -/
def monthFromYday (leap : Bool) (yday : Int) : Int × Int :=
  if leap = true ∧ yday = 59 then (2, 29)
  else
    let day := if leap = true ∧ 59 < yday then yday - 1 else yday
    let m0 := day / 31
    let m1 := if daysBefore (m0 + 2) ≤ day then m0 + 1 else m0
    (m1 + 1, day - daysBefore (m1 + 1) + 1)

/-- Civil date `(y, m, d)` of an epoch day, composing the year cascade with
the month table (Go `absDate`). -/
def civilFromDays (z : Int) : Int × Int × Int :=
  let yy := yearAndYday (z + 719162)
  let md := monthFromYday (isLeap yy.1) yy.2
  (yy.1, md.1, md.2)

theorem yearCascadeCore (d1 b c d e f g : Int)
    (h0 : 0 ≤ d1) (h1 : d1 ≤ 3652058)
    (hb0 : 0 ≤ d1 - 146097 * b) (hb1 : d1 - 146097 * b ≤ 146096)
    (hc0 : 0 ≤ d1 - 146097 * b - 36524 * c) (hc1 : d1 - 146097 * b - 36524 * c ≤ 36523)
    (hd0 : 0 ≤ c - 4 * d) (hd1 : c - 4 * d ≤ 3)
    (he0 : 0 ≤ d1 - 146097 * b - 36524 * (c - d) - 1461 * e)
    (he1 : d1 - 146097 * b - 36524 * (c - d) - 1461 * e ≤ 1460)
    (hf0 : 0 ≤ d1 - 146097 * b - 36524 * (c - d) - 1461 * e - 365 * f)
    (hf1 : d1 - 146097 * b - 36524 * (c - d) - 1461 * e - 365 * f ≤ 364)
    (hg0 : 0 ≤ f - 4 * g) (hg1 : f - 4 * g ≤ 3) :
    daysFromYear (1 + 400 * b + 100 * (c - d) + 4 * e + (f - g)) +
      (d1 - 146097 * b - 36524 * (c - d) - 1461 * e - 365 * (f - g)) = d1 ∧
    1 ≤ 1 + 400 * b + 100 * (c - d) + 4 * e + (f - g) ∧
    1 + 400 * b + 100 * (c - d) + 4 * e + (f - g) ≤ 9999 ∧
    0 ≤ d1 - 146097 * b - 36524 * (c - d) - 1461 * e - 365 * (f - g) ∧
    d1 - 146097 * b - 36524 * (c - d) - 1461 * e - 365 * (f - g) ≤ 365 ∧
    ((d1 - 146097 * b - 36524 * (c - d) - 1461 * e - 365 * (f - g)) = 365 →
      isLeap (1 + 400 * b + 100 * (c - d) + 4 * e + (f - g)) = true) := by
  have hc4 : 0 ≤ c ∧ c ≤ 4 := by omega
  have hr2 : 0 ≤ d1 - 146097 * b - 36524 * (c - d) ∧
      d1 - 146097 * b - 36524 * (c - d) ≤ 36524 := by omega
  have he24 : 0 ≤ e ∧ e ≤ 24 := by omega
  have hf4 : 0 ≤ f ∧ f ≤ 4 := by omega
  have hsmall : 0 ≤ 4 * e + (f - g) ∧ 4 * e + (f - g) ≤ 99 := by omega
  have hmid : 0 ≤ 100 * (c - d) + 4 * e + (f - g) ∧
      100 * (c - d) + 4 * e + (f - g) ≤ 399 := by omega
  refine ⟨?_, by omega, by omega, by omega, by omega, ?_⟩
  · simp only [daysFromYear]
    have hq400 : (1 + 400 * b + 100 * (c - d) + 4 * e + (f - g) - 1) / 400 = b := by omega
    rw [hq400]
    have hq100 : (1 + 400 * b + 100 * (c - d) + 4 * e + (f - g) - 1 - 400 * b) / 100
        = c - d := by omega
    rw [hq100]
    have hq4 : (1 + 400 * b + 100 * (c - d) + 4 * e + (f - g) - 1 - 400 * b -
        100 * (c - d)) / 4 = e := by omega
    rw [hq4]
    omega
  · intro h365
    have hg1' : g = 1 ∧ f = 4 := by omega
    have he' : e = 24 → c = 4 ∧ d = 1 := by omega
    simp only [isLeap, Bool.and_eq_true, Bool.or_eq_true, beq_iff_eq, bne_iff_ne,
      decide_eq_true_eq, ne_eq]
    omega

theorem yearAndYday_facts (d1 : Int) (h0 : 0 ≤ d1) (h1 : d1 ≤ 3652058) :
    daysFromYear (yearAndYday d1).1 + (yearAndYday d1).2 = d1 ∧
    1 ≤ (yearAndYday d1).1 ∧ (yearAndYday d1).1 ≤ 9999 ∧
    0 ≤ (yearAndYday d1).2 ∧ (yearAndYday d1).2 ≤ 365 ∧
    ((yearAndYday d1).2 = 365 → isLeap (yearAndYday d1).1 = true) := by
  have hcore := yearCascadeCore d1 (d1 / 146097)
      ((d1 - 146097 * (d1 / 146097)) / 36524)
      ((d1 - 146097 * (d1 / 146097)) / 36524 / 4)
      ((d1 - 146097 * (d1 / 146097) -
        36524 * ((d1 - 146097 * (d1 / 146097)) / 36524 -
                 (d1 - 146097 * (d1 / 146097)) / 36524 / 4)) / 1461)
      ((d1 - 146097 * (d1 / 146097) -
        36524 * ((d1 - 146097 * (d1 / 146097)) / 36524 -
                 (d1 - 146097 * (d1 / 146097)) / 36524 / 4) -
        1461 * ((d1 - 146097 * (d1 / 146097) -
          36524 * ((d1 - 146097 * (d1 / 146097)) / 36524 -
                   (d1 - 146097 * (d1 / 146097)) / 36524 / 4)) / 1461)) / 365)
      ((d1 - 146097 * (d1 / 146097) -
        36524 * ((d1 - 146097 * (d1 / 146097)) / 36524 -
                 (d1 - 146097 * (d1 / 146097)) / 36524 / 4) -
        1461 * ((d1 - 146097 * (d1 / 146097) -
          36524 * ((d1 - 146097 * (d1 / 146097)) / 36524 -
                   (d1 - 146097 * (d1 / 146097)) / 36524 / 4)) / 1461)) / 365 / 4)
      h0 h1 (by omega) (by omega) (by omega) (by first | omega) (by omega)
      (by omega) (by omega) (by first | omega) (by omega) (by omega)
      (by omega) (by first | omega)
  simp only [yearAndYday]
  exact hcore

theorem monthCore (leap : Bool) (yday : Int) (h0 : 0 ≤ yday) (h1 : yday ≤ 365)
    (h365 : yday = 365 → leap = true) :
    1 ≤ (monthFromYday leap yday).1 ∧ (monthFromYday leap yday).1 ≤ 12 ∧
    1 ≤ (monthFromYday leap yday).2 ∧
    (monthFromYday leap yday).2 ≤
      (if (monthFromYday leap yday).1 = 2 then (if leap then 29 else 28)
       else if (monthFromYday leap yday).1 = 4 ∨ (monthFromYday leap yday).1 = 6 ∨
           (monthFromYday leap yday).1 = 9 ∨ (monthFromYday leap yday).1 = 11 then 30
       else 31) ∧
    daysBefore (monthFromYday leap yday).1 +
      (if 2 < (monthFromYday leap yday).1 ∧ leap = true then 1 else 0) +
      ((monthFromYday leap yday).2 - 1) = yday := by
  cases leap
  · have h4 : yday ≤ 364 := by
      by_contra hc
      have := h365 (by omega)
      cases this
    interval_cases yday <;> decide
  · interval_cases yday <;> decide

theorem civil_inv (z : Int) (hlo : -719162 ≤ z) (hhi : z ≤ 2932896) :
    daysFromCivil (civilFromDays z).1 (civilFromDays z).2.1 (civilFromDays z).2.2 = z ∧
    1 ≤ (civilFromDays z).1 ∧ (civilFromDays z).1 ≤ 9999 ∧
    1 ≤ (civilFromDays z).2.1 ∧ (civilFromDays z).2.1 ≤ 12 ∧
    1 ≤ (civilFromDays z).2.2 ∧
    (civilFromDays z).2.2 ≤ daysInMonth (civilFromDays z).1 (civilFromDays z).2.1 := by
  have hyy := yearAndYday_facts (z + 719162) (by omega) (by omega)
  obtain ⟨hrec, hy1, hy2, hyd0, hyd1, hleap⟩ := hyy
  have hmon := monthCore (isLeap (yearAndYday (z + 719162)).1)
      (yearAndYday (z + 719162)).2 hyd0 hyd1 hleap
  obtain ⟨hm1, hm2, hd1, hd2, hmrec⟩ := hmon
  simp only [civilFromDays, daysFromCivil, daysInMonth]
  refine ⟨by omega, hy1, hy2, hm1, hm2, hd1, ?_⟩
  split_ifs with hif1 hif2 <;> simp_all

/-! ## Characters, digits, and numeric strings -/

/-- Digit character of a value below ten. -/
def digitChar (d : Nat) : Char :=
  match d with
  | 0 => '0' | 1 => '1' | 2 => '2' | 3 => '3' | 4 => '4'
  | 5 => '5' | 6 => '6' | 7 => '7' | 8 => '8' | _ => '9'

/-- Value of a decimal digit character; `none` on any other character. -/
def readDigit (c : Char) : Option Nat :=
  if 48 ≤ c.val ∧ c.val ≤ 57 then some (c.val.toNat - 48) else none

/-- Exactly `k` decimal digits of `n`, most significant first, zero padded
(the low `k` digits when `n` has more). -/
def fixedDigits : Nat → Nat → List Char
  | 0, _ => []
  | k + 1, n => fixedDigits k (n / 10) ++ [digitChar (n % 10)]

/-- Worker for `natDigits`; the fuel bounds the number of digits. -/
def natDigitsAux : Nat → Nat → List Char
  | 0, _ => []
  | fuel + 1, n =>
    if n < 10 then [digitChar n]
    else natDigitsAux fuel (n / 10) ++ [digitChar (n % 10)]

/-- All decimal digits of `n`, most significant first, no padding. -/
def natDigits (n : Nat) : List Char := natDigitsAux (n + 1) n

/-- Decimal rendering of an integer (model of Go `strconv.Itoa`). -/
def itoa (n : Int) : String :=
  String.mk ((if n < 0 then ['-'] else []) ++ natDigits n.natAbs)

/-- Consume exactly `k` decimal digits, extending the accumulator. -/
def readFixed : Nat → Nat → List Char → Option (Nat × List Char)
  | 0, acc, cs => some (acc, cs)
  | _ + 1, _, [] => none
  | k + 1, acc, c :: cs =>
    match readDigit c with
    | some d => readFixed k (acc * 10 + d) cs
    | none => none

/-- Consume a maximal run of decimal digits, extending the accumulator. -/
def readNatAux : List Char → Nat → Nat × List Char
  | [], acc => (acc, [])
  | c :: cs, acc =>
    match readDigit c with
    | some d => readNatAux cs (acc * 10 + d)
    | none => (acc, c :: cs)

/-- Value of an all-digit run folded onto an accumulator. -/
def valAux (acc : Nat) : List Char → Nat
  | [] => acc
  | c :: cs => valAux (acc * 10 + (readDigit c).getD 0) cs

/-- Worker for `digitsVal`. -/
def digitsValAux : List Char → Nat → Option Nat
  | [], acc => some acc
  | c :: cs, acc =>
    match readDigit c with
    | some d => digitsValAux cs (acc * 10 + d)
    | none => none

/-- Value of a nonempty all-digit string; `none` when empty or when any
character is not a digit. -/
def digitsVal : List Char → Option Nat
  | [] => none
  | cs => digitsValAux cs 0

theorem readDigit_digitChar (d : Nat) (h : d < 10) : readDigit (digitChar d) = some d := by
  interval_cases d <;> rfl

theorem readFixed_add (k1 k2 acc : Nat) (cs : List Char) :
    readFixed (k1 + k2) acc cs =
      (readFixed k1 acc cs).bind fun p => readFixed k2 p.1 p.2 := by
  induction k1 generalizing acc cs with
  | zero => simp [readFixed]
  | succ k ih =>
    cases cs with
    | nil =>
      have : k + 1 + k2 = (k + k2) + 1 := by omega
      rw [this]
      simp [readFixed]
    | cons c cs' =>
      have : k + 1 + k2 = (k + k2) + 1 := by omega
      rw [this]
      simp only [readFixed]
      cases readDigit c with
      | none => simp
      | some d => simpa using ih (acc * 10 + d) cs'

theorem readFixed_fixedDigits (k : Nat) :
    ∀ acc n rest, n < 10 ^ k →
      readFixed k acc (fixedDigits k n ++ rest) = some (acc * 10 ^ k + n, rest) := by
  induction k with
  | zero =>
    intro acc n rest h
    have hn : n = 0 := by omega
    subst hn
    simp [fixedDigits, readFixed]
  | succ k ih =>
    intro acc n rest h
    have hdiv : n / 10 < 10 ^ k := by
      have := Nat.pow_succ 10 k
      omega
    have hfd : fixedDigits (k + 1) n = fixedDigits k (n / 10) ++ [digitChar (n % 10)] := rfl
    rw [hfd, List.append_assoc]
    rw [readFixed_add k 1 acc]
    rw [ih acc (n / 10) ([digitChar (n % 10)] ++ rest) hdiv]
    simp [Option.some_bind, readFixed, readDigit_digitChar (n % 10) (by omega)]
    have hn : n % 10 < 10 ∧ n = 10 * (n / 10) + n % 10 := ⟨by omega, by omega⟩
    have hpow : 10 ^ (k + 1) = 10 ^ k * 10 := Nat.pow_succ 10 k
    have hpow2 : acc * 10 ^ (k + 1) = acc * 10 ^ k * 10 := by
      rw [Nat.pow_succ]
      ring
    omega

theorem valAux_append (acc : Nat) (xs ys : List Char) :
    valAux acc (xs ++ ys) = valAux (valAux acc xs) ys := by
  induction xs generalizing acc with
  | nil => rfl
  | cons c cs ih => simp [valAux, ih]

theorem natDigitsAux_spec (fuel : Nat) :
    ∀ n, n < fuel →
      0 < (natDigitsAux fuel n).length ∧
      (∀ c ∈ natDigitsAux fuel n, (readDigit c).isSome) ∧
      ∀ acc, valAux acc (natDigitsAux fuel n) =
        acc * 10 ^ (natDigitsAux fuel n).length + n := by
  induction fuel with
  | zero => intro n h; omega
  | succ fuel ih =>
    intro n h
    by_cases h10 : n < 10
    · refine ⟨by simp [natDigitsAux, h10], ?_, ?_⟩
      · intro c hc
        simp [natDigitsAux, h10] at hc
        subst hc
        rw [readDigit_digitChar n h10]
        rfl
      · intro acc
        simp [natDigitsAux, h10, valAux, readDigit_digitChar n h10, Nat.pow_one]
    · have hr : n / 10 < fuel := by omega
      obtain ⟨hlen, hdig, hval⟩ := ih (n / 10) hr
      simp only [natDigitsAux, if_neg h10]
      refine ⟨by simp, ?_, ?_⟩
      · intro c hc
        simp at hc
        rcases hc with hc | hc
        · exact hdig c hc
        · subst hc
          rw [readDigit_digitChar _ (by omega)]
          rfl
      · intro acc
        rw [valAux_append, hval acc]
        simp only [valAux, readDigit_digitChar (n % 10) (by omega), Option.getD_some,
          List.length_append, List.length_cons, List.length_nil, Nat.zero_add]
        have hpow2 : acc * 10 ^ ((natDigitsAux fuel (n / 10)).length + 1) =
            acc * 10 ^ (natDigitsAux fuel (n / 10)).length * 10 := by
          rw [Nat.pow_succ]
          ring
        omega

theorem natDigits_len_pos (n : Nat) : 0 < (natDigits n).length :=
  (natDigitsAux_spec (n + 1) n (by omega)).1

theorem natDigits_all_digits (n : Nat) : ∀ c ∈ natDigits n, (readDigit c).isSome :=
  (natDigitsAux_spec (n + 1) n (by omega)).2.1

theorem valAux_natDigits (n : Nat) :
    ∀ acc, valAux acc (natDigits n) = acc * 10 ^ (natDigits n).length + n :=
  (natDigitsAux_spec (n + 1) n (by omega)).2.2

theorem readNatAux_digits (ds : List Char) (hds : ∀ c ∈ ds, (readDigit c).isSome) :
    ∀ rest acc, (∀ c, rest.head? = some c → readDigit c = none) →
      readNatAux (ds ++ rest) acc = (valAux acc ds, rest) := by
  induction ds with
  | nil =>
    intro rest acc hrest
    cases rest with
    | nil => rfl
    | cons c cs =>
      have := hrest c rfl
      simp [readNatAux, valAux, this]
  | cons c cs ih =>
    intro rest acc hrest
    have hc := hds c (by simp)
    cases hrd : readDigit c with
    | none => rw [hrd] at hc; cases hc
    | some d =>
      simp only [List.cons_append, readNatAux, hrd, valAux, Option.getD_some]
      exact ih (fun x hx => hds x (by simp [hx])) rest (acc * 10 + d) hrest

theorem digitsValAux_digits (ds : List Char) (hds : ∀ c ∈ ds, (readDigit c).isSome) :
    ∀ acc, digitsValAux ds acc = some (valAux acc ds) := by
  induction ds with
  | nil => intro acc; rfl
  | cons c cs ih =>
    intro acc
    have hc := hds c (by simp)
    cases hrd : readDigit c with
    | none => rw [hrd] at hc; cases hc
    | some d =>
      simp only [digitsValAux, hrd, valAux, Option.getD_some]
      exact ih (fun x hx => hds x (by simp [hx])) (acc * 10 + d)

/-! ## Errors -/

/-- Errors of the codec, one constructor per `error` the Go code can
produce, carrying the values the corresponding `fmt.Errorf` formats. -/
inductive GoErr where
  | urlMissingScheme
  | hostMismatch (host computed : String)
  | etldError (host : String)
  | domainMismatch (domain computed : String)
  | timefmtMalformed (s : String)
  | fractionalDiff (diff : Int)
  | atoiMalformed (s : String)
  | weekdayMismatch (given computed : Int)
  | timezoneDrift (offset tz : Int)
  | unknownTransition (s : String)
deriving DecidableEq, Repr

instance {e a : Type} [DecidableEq e] [DecidableEq a] : DecidableEq (Except e a) := fun x y =>
  match x, y with
  | .ok u, .ok v =>
    match decEq u v with
    | isTrue h => isTrue (h ▸ rfl)
    | isFalse h => isFalse fun hc => h (Except.ok.inj hc)
  | .error u, .error v =>
    match decEq u v with
    | isTrue h => isTrue (h ▸ rfl)
    | isFalse h => isFalse fun hc => h (Except.error.inj hc)
  | .ok _, .error _ => isFalse fun hc => Except.noConfusion hc
  | .error _, .ok _ => isFalse fun hc => Except.noConfusion hc

/-! ## The timefmt fractional-millisecond codec (modelled from the spec) -/

/-- Unsigned part of `timefmtParse`: one or more integer digits, optionally
a point and one to six fractional digits, nothing else; the value is in
nanoseconds. -/
def timefmtParseAbs (cs : List Char) : Option Nat :=
  match cs with
  | [] => none
  | c :: _ =>
    if (readDigit c).isNone then none
    else
      let p := readNatAux cs 0
      match p.2 with
      | [] => some (p.1 * 1000000)
      | '.' :: frac =>
        if frac.length = 0 ∨ 6 < frac.length then none
        else
          match digitsVal frac with
          | some fv => some (p.1 * 1000000 + fv * 10 ^ (6 - frac.length))
          | none => none
      | _ => none

/-- Modelled from the spec: `timefmt.Parse(s, timefmt.Milli, timefmt.Unix)`
(the repository's `jsonutil/timefmt` package is not under `src/`).  The
visit-time column is a decimal count of milliseconds since the Unix epoch,
fraction allowed, sub-millisecond precision retained; the model reads an
optional minus sign, integer digits and up to six fractional digits
(nanosecond resolution) and yields the instant in nanoseconds. -/
def timefmtParseOpt : List Char → Option Int
  | c :: rest =>
    if c = '-' then (timefmtParseAbs rest).map (fun v => -(v : Int))
    else (timefmtParseAbs (c :: rest)).map (fun v => (v : Int))
  | [] => none

/-- Wrap the optional-value parser as the `Except`-returning entry point. -/
def timefmtParse (s : String) : Except GoErr Int :=
  match timefmtParseOpt s.toList with
  | some v => .ok v
  | none => .error (.timefmtMalformed s)

/-- Modelled from the spec: `timefmt.Format(t, timefmt.Milli, timefmt.Unix)`
— the instant as decimal milliseconds since the Unix epoch, keeping the
sub-millisecond fraction (six fractional digits, nanosecond resolution). -/
def timefmtFormat (t : Int) : String :=
  String.mk ((if t < 0 then ['-'] else []) ++
    natDigits (t.natAbs / 1000000) ++ '.' :: fixedDigits 6 (t.natAbs % 1000000))

/-- Model of Go `strconv.Atoi`: optional sign, one or more digits spanning
the whole string, 64-bit range. -/
def goAtoi (s : String) : Except GoErr Int :=
  let p : Bool × List Char :=
    match s.toList with
    | c :: rest =>
      if c = '-' then (true, rest)
      else if c = '+' then (false, rest)
      else (false, c :: rest)
    | [] => (false, [])
  match digitsVal p.2 with
  | none => .error (.atoiMalformed s)
  | some n =>
    let v : Int := if p.1 then -(n : Int) else (n : Int)
    if v < -9223372036854775808 ∨ 9223372036854775807 < v then
      .error (.atoiMalformed s)
    else .ok v

/-! ## Go time.Parse / Format with layout "2006-01-02 15:04:05.000" -/

/-- Expect one specific character. -/
def expectChar (c : Char) : List Char → Option (List Char)
  | x :: xs => if x = c then some xs else none
  | [] => none

/-- Expect the fractional-second separator; Go accepts a point or a comma. -/
def expectFracSep : List Char → Option (List Char)
  | x :: xs => if x = '.' ∨ x = ',' then some xs else none
  | [] => none

/-- One `k`-digit field followed by the literal separator `sep`, prepended
to the accumulated field values. -/
def readFieldSep (k : Nat) (sep : Char) :
    Option (List Nat × List Char) → Option (List Nat × List Char)
  | some (vs, cs) =>
    match readFixed k 0 cs with
    | some (v, rest) =>
      match expectChar sep rest with
      | some rest2 => some (v :: vs, rest2)
      | none => none
    | none => none
  | none => none

/-- One `k`-digit field followed by the fractional-second separator. -/
def readFieldFracSep (k : Nat) :
    Option (List Nat × List Char) → Option (List Nat × List Char)
  | some (vs, cs) =>
    match readFixed k 0 cs with
    | some (v, rest) =>
      match expectFracSep rest with
      | some rest2 => some (v :: vs, rest2)
      | none => none
    | none => none
  | none => none

/-- One final `k`-digit field with no separator. -/
def readFieldLast (k : Nat) :
    Option (List Nat × List Char) → Option (List Nat × List Char)
  | some (vs, cs) =>
    match readFixed k 0 cs with
    | some (v, rest) => some (v :: vs, rest)
    | none => none
  | none => none

/-- Field pipeline of the `"2006-01-02 15:04:05.000"` layout: year, month,
day, hour, minute, second with their literal separators, then the three
fractional-second digits. -/
def goTimePipeline (cs : List Char) : Option (List Nat × List Char) :=
  readFieldLast 3 (readFieldFracSep 2 (readFieldSep 2 ':' (readFieldSep 2 ':'
    (readFieldSep 2 ' ' (readFieldSep 2 '-' (readFieldSep 4 '-' (some ([], cs))))))))

/-- Validation and assembly of the parsed fields: month, day (against the
month length and leap year), hour, minute and second ranges are checked as
`time.Parse` does; the civil time is read as UTC (the layout carries no
zone) and returned as nanoseconds since the Unix epoch. -/
def goTimeAssemble (ms ss mi hh dy mo y : Nat) : Option Int :=
  if mo < 1 ∨ 12 < mo then none
  else if (dy : Int) < 1 ∨ daysInMonth (y : Int) (mo : Int) < (dy : Int) then none
  else if 23 < hh then none
  else if 59 < mi then none
  else if 59 < ss then none
  else some (daysFromCivil (y : Int) (mo : Int) (dy : Int) * 86400000000000 +
    ((hh : Int) * 3600 + (mi : Int) * 60 + (ss : Int)) * 1000000000 +
    (ms : Int) * 1000000)

/-- Model of Go `time.Parse` with the fixed layout
`"2006-01-02 15:04:05.000"`: the field pipeline must consume the whole
string, then the fields are validated and assembled. -/
def goTimeParse (s : String) : Option Int :=
  match goTimePipeline s.toList with
  | some ([ms, ss, mi, hh, dy, mo, y], []) => goTimeAssemble ms ss mi hh dy mo y
  | _ => none

/-- Model of Go `appendInt` with a width: a minus sign for negative values,
digits zero-padded to width `k` (all digits when wider). -/
def goAppendInt (k : Nat) (n : Int) : List Char :=
  (if n < 0 then ['-'] else []) ++
    (if n.natAbs < 10 ^ k then fixedDigits k n.natAbs else natDigits n.natAbs)

/-- Model of Go `time.Time.Format` with the layout
`"2006-01-02 15:04:05.000"` on a UTC-offset-adjusted instant: the civil
date of the floor day, zero-padded two digit time fields, and the
millisecond fraction obtained by truncating the nanosecond field. -/
def goFormatLocal (t : Int) : String :=
  let z := t / 86400000000000
  let rem := t % 86400000000000
  let c := civilFromDays z
  String.mk (goAppendInt 4 c.1 ++ '-' ::
    (goAppendInt 2 c.2.1 ++ '-' ::
    (goAppendInt 2 c.2.2 ++ ' ' ::
    (goAppendInt 2 (rem / 3600000000000) ++ ':' ::
    (goAppendInt 2 (rem % 3600000000000 / 60000000000) ++ ':' ::
    (goAppendInt 2 (rem % 60000000000 / 1000000000) ++ '.' ::
      fixedDigits 3 (rem % 1000000000 / 1000000).toNat))))))

example : goTimeParse "2021-06-07 10:00:00.000" = some 1623060000000000000 := by decide
example : goTimeParse "2013-11-16 14:49:18.041" = some 1384613358041000000 := by decide
example : goTimeParse "bogus" = none := by decide
example : goTimeParse "2021-06-07 10:00:00.000x" = none := by decide
example : goTimeParse "2021-13-07 10:00:00.000" = none := by decide
example : goTimeParse "2021-02-29 10:00:00.000" = none := by decide
example : goTimeParse "2020-02-29 10:00:00.000" = some 1582970400000000000 := by decide
example : goFormatLocal 1623060000000000000 = "2021-06-07 10:00:00.000" := by decide
example : goFormatLocal 1384634958041754000 = "2013-11-16 20:49:18.041" := by decide
example : timefmtParse "1384634958041.754" = .ok 1384634958041754000 := by decide
example : timefmtFormat (-1) = "-0.000001" := by decide
example : timefmtFormat 2041754321 = "2041.754321" := by decide
example : timefmtParse "0" = .ok 0 := by decide
example : timefmtParse "-62135596800000" = .ok (-62135596800000000000) := by decide
example : goAtoi "4" = .ok 4 := by decide
example : goAtoi "x" = .error (.atoiMalformed "x") := by decide
example : goWeekday 1623060000000000000 = 1 := by decide

/-! ## Roundtrip of the timefmt codec -/

theorem fixedDigits_length (k : Nat) : ∀ n, (fixedDigits k n).length = k := by
  induction k with
  | zero => intro n; rfl
  | succ k ih => intro n; simp [fixedDigits, ih]

theorem fixedDigits_all_digits (k : Nat) :
    ∀ n, ∀ c ∈ fixedDigits k n, (readDigit c).isSome := by
  induction k with
  | zero => intro n c hc; cases hc
  | succ k ih =>
    intro n c hc
    simp only [fixedDigits] at hc
    rw [List.mem_append] at hc
    rcases hc with hc | hc
    · exact ih (n / 10) c hc
    · simp at hc
      subst hc
      rw [readDigit_digitChar _ (by omega)]
      rfl

theorem valAux_fixedDigits (k : Nat) :
    ∀ n acc, n < 10 ^ k → valAux acc (fixedDigits k n) = acc * 10 ^ k + n := by
  induction k with
  | zero =>
    intro n acc h
    simp only [Nat.pow_zero] at h
    simp [fixedDigits, valAux]
    omega
  | succ k ih =>
    intro n acc h
    have hdiv : n / 10 < 10 ^ k := by
      have := Nat.pow_succ 10 k
      omega
    simp only [fixedDigits]
    rw [valAux_append, ih (n / 10) acc hdiv]
    simp only [valAux, readDigit_digitChar (n % 10) (by omega), Option.getD_some]
    have hpow2 : acc * 10 ^ (k + 1) = acc * 10 ^ k * 10 := by
      rw [Nat.pow_succ]
      ring
    omega

theorem digitsVal_cons (c : Char) (cs : List Char) :
    digitsVal (c :: cs) = digitsValAux (c :: cs) 0 := rfl

theorem digitsVal_fixedDigits (k n : Nat) (hk : 0 < k) (hn : n < 10 ^ k) :
    digitsVal (fixedDigits k n) = some n := by
  have hlen := fixedDigits_length k n
  cases hfd : fixedDigits k n with
  | nil => rw [hfd] at hlen; simp at hlen; omega
  | cons c cs =>
    rw [digitsVal_cons]
    rw [← hfd]
    rw [digitsValAux_digits (fixedDigits k n) (fixedDigits_all_digits k n) 0]
    rw [valAux_fixedDigits k n 0 hn]
    simp

theorem timefmtParseAbs_format (a : Nat) :
    timefmtParseAbs (natDigits (a / 1000000) ++ '.' :: fixedDigits 6 (a % 1000000)) =
      some a := by
  have hd := natDigits_all_digits (a / 1000000)
  have hlen := natDigits_len_pos (a / 1000000)
  obtain ⟨c, cs', hcons⟩ : ∃ c cs', natDigits (a / 1000000) = c :: cs' := by
    cases h : natDigits (a / 1000000) with
    | nil => rw [h] at hlen; simp at hlen
    | cons c cs' => exact ⟨c, cs', rfl⟩
  have hchead : (readDigit c).isSome := hd c (by rw [hcons]; simp)
  have hread := readNatAux_digits (natDigits (a / 1000000)) hd
      ('.' :: fixedDigits 6 (a % 1000000)) 0
      (by intro x hx; simp at hx; subst hx; rfl)
  rw [hcons] at hread ⊢
  simp only [List.cons_append, timefmtParseAbs]
  cases hrd : readDigit c with
  | none => rw [hrd] at hchead; cases hchead
  | some d =>
    rw [if_neg (by simp)]
    simp only [List.cons_append] at hread
    rw [hread]
    simp only [fixedDigits_length]
    rw [if_neg (by omega)]
    rw [digitsVal_fixedDigits 6 (a % 1000000) (by omega) (by omega)]
    have hval := valAux_natDigits (a / 1000000) 0
    rw [hcons] at hval
    rw [hval]
    simp only [Nat.sub_self, Nat.pow_zero, Nat.mul_one, Nat.zero_mul, Nat.zero_add]
    show some (a / 1000000 * 1000000 + a % 1000000) = some a
    congr 1
    omega

theorem timefmtFormat_toList (t : Int) :
    (timefmtFormat t).toList = (if t < 0 then ['-'] else []) ++
      natDigits (t.natAbs / 1000000) ++ '.' :: fixedDigits 6 (t.natAbs % 1000000) := rfl

theorem timefmtParseOpt_cons (c : Char) (rest : List Char) :
    timefmtParseOpt (c :: rest) =
      if c = '-' then (timefmtParseAbs rest).map (fun v => -(v : Int))
      else (timefmtParseAbs (c :: rest)).map (fun v => (v : Int)) := rfl

theorem timefmtParse_of_opt (s : String) (v : Int)
    (h : timefmtParseOpt s.toList = some v) : timefmtParse s = .ok v := by
  unfold timefmtParse
  rw [h]

theorem timefmtParse_timefmtFormat (t : Int) :
    timefmtParse (timefmtFormat t) = .ok t := by
  apply timefmtParse_of_opt
  rw [timefmtFormat_toList]
  by_cases ht : t < 0
  · rw [if_pos ht]
    simp only [List.singleton_append, List.cons_append, List.nil_append]
    rw [timefmtParseOpt_cons]
    have hminus : (('-' : Char) = '-') := rfl
    rw [if_pos hminus]
    rw [timefmtParseAbs_format t.natAbs]
    show some (-(t.natAbs : Int)) = some t
    congr 1
    omega
  · rw [if_neg ht]
    simp only [List.nil_append]
    have hd := natDigits_all_digits (t.natAbs / 1000000)
    have hlen := natDigits_len_pos (t.natAbs / 1000000)
    obtain ⟨c, cs', hcons⟩ : ∃ c cs',
        natDigits (t.natAbs / 1000000) = c :: cs' := by
      cases h : natDigits (t.natAbs / 1000000) with
      | nil => rw [h] at hlen; simp at hlen
      | cons c cs' => exact ⟨c, cs', rfl⟩
    have hchead : (readDigit c).isSome := hd c (by rw [hcons]; simp)
    have hcne : c ≠ '-' := by
      intro hc
      rw [hc] at hchead
      cases hchead
    rw [hcons]
    simp only [List.cons_append]
    rw [timefmtParseOpt_cons]
    rw [if_neg hcne]
    have habs := timefmtParseAbs_format t.natAbs
    rw [hcons] at habs
    simp only [List.cons_append] at habs
    rw [habs]
    show some ((t.natAbs : Int)) = some t
    congr 1
    omega

/-! ## Roundtrip of the local-time layout -/

theorem toList_mk (l : List Char) : (String.mk l).toList = l := rfl

theorem readFieldSep_step (k : Nat) (sep : Char) (vs : List Nat) (n : Nat)
    (rest : List Char) (h : n < 10 ^ k) :
    readFieldSep k sep (some (vs, fixedDigits k n ++ sep :: rest)) =
      some (n :: vs, rest) := by
  simp only [readFieldSep]
  rw [readFixed_fixedDigits k 0 n (sep :: rest) h]
  simp [expectChar]

theorem readFieldFracSep_step (k : Nat) (vs : List Nat) (n : Nat)
    (rest : List Char) (h : n < 10 ^ k) :
    readFieldFracSep k (some (vs, fixedDigits k n ++ '.' :: rest)) =
      some (n :: vs, rest) := by
  simp only [readFieldFracSep]
  rw [readFixed_fixedDigits k 0 n ('.' :: rest) h]
  simp [expectFracSep]

theorem readFieldLast_step (k : Nat) (vs : List Nat) (n : Nat)
    (rest : List Char) (h : n < 10 ^ k) :
    readFieldLast k (some (vs, fixedDigits k n ++ rest)) = some (n :: vs, rest) := by
  simp only [readFieldLast]
  rw [readFixed_fixedDigits k 0 n rest h]
  simp

theorem goTimeParse_of_pipe (s : String) (ms ss mi hh dy mo y : Nat)
    (h : goTimePipeline s.toList = some ([ms, ss, mi, hh, dy, mo, y], [])) :
    goTimeParse s = goTimeAssemble ms ss mi hh dy mo y := by
  unfold goTimeParse
  rw [h]

theorem goAppendInt_eq_fixed (k : Nat) (n : Int) (h0 : 0 ≤ n)
    (h1 : n.natAbs < 10 ^ k) : goAppendInt k n = fixedDigits k n.natAbs := by
  simp only [goAppendInt]
  rw [if_neg (by omega), if_pos h1]
  rfl

theorem readFieldLast_step_nil (k : Nat) (vs : List Nat) (n : Nat) (h : n < 10 ^ k) :
    readFieldLast k (some (vs, fixedDigits k n)) = some (n :: vs, []) := by
  have hstep := readFieldLast_step k vs n [] h
  rwa [List.append_nil] at hstep

theorem goTimeParse_goFormatLocal (t : Int)
    (hlo : -719162 ≤ t / 86400000000000) (hhi : t / 86400000000000 ≤ 2932896) :
    goTimeParse (goFormatLocal t) = some (goTruncMilli t) := by
  obtain ⟨hrec, hy1, hy2, hm1, hm2, hd1, hd2⟩ := civil_inv (t / 86400000000000) hlo hhi
  have hrem0 : 0 ≤ t % 86400000000000 := by omega
  have hrem1 : t % 86400000000000 < 86400000000000 := by omega
  have hmdub : daysInMonth (civilFromDays (t / 86400000000000)).1
      (civilFromDays (t / 86400000000000)).2.1 ≤ 31 := by
    simp only [daysInMonth]
    split_ifs <;> omega
  have hfmt : (goFormatLocal t).toList =
      fixedDigits 4 (civilFromDays (t / 86400000000000)).1.natAbs ++ '-' ::
        (fixedDigits 2 (civilFromDays (t / 86400000000000)).2.1.natAbs ++ '-' ::
        (fixedDigits 2 (civilFromDays (t / 86400000000000)).2.2.natAbs ++ ' ' ::
        (fixedDigits 2 (t % 86400000000000 / 3600000000000).natAbs ++ ':' ::
        (fixedDigits 2 (t % 86400000000000 % 3600000000000 / 60000000000).natAbs ++ ':' ::
        (fixedDigits 2 (t % 86400000000000 % 60000000000 / 1000000000).natAbs ++ '.' ::
          fixedDigits 3 (t % 86400000000000 % 1000000000 / 1000000).toNat))))) := by
    simp only [goFormatLocal, toList_mk]
    rw [goAppendInt_eq_fixed 4 _ (by omega) (by omega),
        goAppendInt_eq_fixed 2 _ (by omega) (by omega),
        goAppendInt_eq_fixed 2 _ (by omega) (by omega),
        goAppendInt_eq_fixed 2 _ (by omega) (by omega),
        goAppendInt_eq_fixed 2 _ (by omega) (by omega),
        goAppendInt_eq_fixed 2 _ (by omega) (by omega)]
  have hpipe : goTimePipeline (goFormatLocal t).toList =
      some ([(t % 86400000000000 % 1000000000 / 1000000).toNat,
             (t % 86400000000000 % 60000000000 / 1000000000).natAbs,
             (t % 86400000000000 % 3600000000000 / 60000000000).natAbs,
             (t % 86400000000000 / 3600000000000).natAbs,
             (civilFromDays (t / 86400000000000)).2.2.natAbs,
             (civilFromDays (t / 86400000000000)).2.1.natAbs,
             (civilFromDays (t / 86400000000000)).1.natAbs], []) := by
    rw [hfmt]
    simp only [goTimePipeline]
    rw [readFieldSep_step 4 '-' [] _ _ (by omega)]
    rw [readFieldSep_step 2 '-' _ _ _ (by omega)]
    rw [readFieldSep_step 2 ' ' _ _ _ (by omega)]
    rw [readFieldSep_step 2 ':' _ _ _ (by omega)]
    rw [readFieldSep_step 2 ':' _ _ _ (by omega)]
    rw [readFieldFracSep_step 2 _ _ _ (by omega)]
    rw [readFieldLast_step_nil 3 _ _ (by omega)]
  rw [goTimeParse_of_pipe (goFormatLocal t) _ _ _ _ _ _ _ hpipe]
  simp only [goTimeAssemble]
  rw [Int.natAbs_of_nonneg (show (0 : Int) ≤
        (civilFromDays (t / 86400000000000)).1 by omega),
      Int.natAbs_of_nonneg (show (0 : Int) ≤
        (civilFromDays (t / 86400000000000)).2.1 by omega),
      Int.natAbs_of_nonneg (show (0 : Int) ≤
        (civilFromDays (t / 86400000000000)).2.2 by omega),
      Int.natAbs_of_nonneg (show (0 : Int) ≤
        t % 86400000000000 / 3600000000000 by omega),
      Int.natAbs_of_nonneg (show (0 : Int) ≤
        t % 86400000000000 % 3600000000000 / 60000000000 by omega),
      Int.natAbs_of_nonneg (show (0 : Int) ≤
        t % 86400000000000 % 60000000000 / 1000000000 by omega),
      Int.toNat_of_nonneg (show (0 : Int) ≤
        t % 86400000000000 % 1000000000 / 1000000 by omega)]
  rw [if_neg (by omega)]
  rw [if_neg (by omega)]
  rw [if_neg (by omega)]
  rw [if_neg (by omega)]
  rw [if_neg (by omega)]
  rw [hrec]
  congr 1
  simp only [goTruncMilli]
  omega

/-! ## Model of net/url (external collaborator) -/

/-- Letters, legal anywhere in a scheme (Go `getScheme`). -/
def isSchemeAlpha (c : Char) : Bool :=
  decide (('a' ≤ c ∧ c ≤ 'z') ∨ ('A' ≤ c ∧ c ≤ 'Z'))

/-- Digits and `+ - .`, legal in a scheme after the first character. -/
def isSchemeOther (c : Char) : Bool :=
  ('0' ≤ c && c ≤ '9') || c == '+' || c == '-' || c == '.'

/-- Worker for `getScheme`, mirroring Go `getScheme`'s scan; `acc` holds the
scheme characters read so far, so an empty `acc` marks position zero. -/
def getSchemeAux : List Char → List Char → List Char → Except GoErr (List Char × List Char)
  | [], _, full => .ok ([], full)
  | c :: cs, acc, full =>
    if isSchemeAlpha c then getSchemeAux cs (acc ++ [c]) full
    else if c = ':' then
      (if acc = [] then .error .urlMissingScheme else .ok (acc, cs))
    else if isSchemeOther c then
      (if acc = [] then .ok ([], full) else getSchemeAux cs (acc ++ [c]) full)
    else .ok ([], full)

/-- Model of Go `net/url.getScheme`: split `scheme:rest`; there is no scheme
when the first character is not a letter or no colon is reached; a URL
beginning with a colon is the missing-protocol-scheme error. -/
def getScheme (cs : List Char) : Except GoErr (List Char × List Char) :=
  getSchemeAux cs [] cs

/-- The parts of a parsed URL the codec reads: the authority's host and the
path. -/
structure GoURL where
  host : String
  path : String
deriving DecidableEq, Repr

/-- Model of Go `net/url.stripPort` (used by `URL.Hostname`): the part
before the first colon, with bracket handling for IPv6 literals. -/
def stripPort (hostport : String) : String :=
  let cs := hostport.toList
  if cs.contains ':' then
    if cs.contains ']' then
      let upToBracket := cs.takeWhile (fun c => c ≠ ']')
      String.mk (if upToBracket.head? = some '[' then upToBracket.tail else upToBracket)
    else String.mk (cs.takeWhile (fun c => c ≠ ':'))
  else hostport

/-- Model of Go `URL.Hostname`. -/
def GoURL.hostname (u : GoURL) : String := stripPort u.host

/-- The host of an authority: the part after the last `@` (userinfo comes
before it). -/
def hostOfAuthority (auth : List Char) : List Char :=
  if auth.contains '@' then (auth.reverse.takeWhile (fun c => c ≠ '@')).reverse
  else auth

/-- Model of Go `net/url.Parse` restricted to the features the codec
exercises: scheme detection with the empty-scheme error, fragment and query
stripping, a `//authority` with optional userinfo, and the path that
follows.  Escape validation, percent-decoding and opaque-URL handling are
not modelled (the general theorems quantify over the parse result, and the
concrete URLs of this format contain no escapes). -/
def urlParse (s : String) : Except GoErr GoURL :=
  match getScheme s.toList with
  | .error e => .error e
  | .ok (_, rest) =>
    let rest := rest.takeWhile (fun c => c ≠ '#')
    match rest with
    | '/' :: '/' :: rest2 =>
      let auth := rest2.takeWhile (fun c => c ≠ '/' ∧ c ≠ '?')
      let after := rest2.dropWhile (fun c => c ≠ '/' ∧ c ≠ '?')
      let path := after.takeWhile (fun c => c ≠ '?')
      .ok ⟨String.mk (hostOfAuthority auth), String.mk path⟩
    | _ =>
      .ok ⟨"", String.mk (rest.takeWhile (fun c => c ≠ '?'))⟩

example : urlParse "https://web.archive.org/save/https://medium.com/@user/article" =
    .ok ⟨"web.archive.org", "/save/https://medium.com/@user/article"⟩ := by decide
example : urlParse ":" = .error .urlMissingScheme := by decide
example : urlParse "https://example.com/" = .ok ⟨"example.com", "/"⟩ := by decide
example : urlParse "http://user@example.com:8080/a?q=1#f" =
    .ok ⟨"example.com:8080", "/a"⟩ := by decide
example : GoURL.hostname ⟨"example.com:8080", ""⟩ = "example.com" := by decide

/-! ## Transition codec and title normalization (modelled from the spec) -/

/-- Modelled from the spec: the page-transition vocabulary (the repository's
`chrome` package is not under `src/`; the spec calls it a fixed vocabulary
of core types, qualifiers being unrecoverable from this format).  The
eleven core Chromium transition types. -/
inductive PageTransition where
  | link | typed | autoBookmark | autoSubframe | manualSubframe | generated
  | autoToplevel | formSubmit | reload | keyword | keywordGenerated
deriving DecidableEq, Repr

/-- Modelled from the spec: `chrome.PageTransition.String` — the token of a
core transition type. -/
def PageTransition.str : PageTransition → String
  | .link => "link"
  | .typed => "typed"
  | .autoBookmark => "auto_bookmark"
  | .autoSubframe => "auto_subframe"
  | .manualSubframe => "manual_subframe"
  | .generated => "generated"
  | .autoToplevel => "auto_toplevel"
  | .formSubmit => "form_submit"
  | .reload => "reload"
  | .keyword => "keyword"
  | .keywordGenerated => "keyword_generated"

/-- Modelled from the spec: `chrome.PageTransitionFromString` — decode a
token of the fixed vocabulary; an unknown token is an error, not a
default. -/
def pageTransitionFromString (s : String) : Except GoErr PageTransition :=
  if s = "link" then .ok .link
  else if s = "typed" then .ok .typed
  else if s = "auto_bookmark" then .ok .autoBookmark
  else if s = "auto_subframe" then .ok .autoSubframe
  else if s = "manual_subframe" then .ok .manualSubframe
  else if s = "generated" then .ok .generated
  else if s = "auto_toplevel" then .ok .autoToplevel
  else if s = "form_submit" then .ok .formSubmit
  else if s = "reload" then .ok .reload
  else if s = "keyword" then .ok .keyword
  else if s = "keyword_generated" then .ok .keywordGenerated
  else .error (.unknownTransition s)

theorem pageTransitionFromString_str (p : PageTransition) :
    pageTransitionFromString p.str = .ok p := by
  cases p <;> rfl

/-- Modelled from the spec: the title normalization policy (`normalizeTitle`
in the repository's reader, not under `src/`): control characters are
replaced by spaces and leading and trailing spaces are removed. -/
def normalizeTitle (title : String) : String :=
  let repl := title.toList.map fun c =>
    if c.val < 32 ∨ c.val = 127 then ' ' else c
  String.mk (((repl.dropWhile (fun c => c = ' ')).reverse.dropWhile
    (fun c => c = ' ')).reverse)

example : normalizeTitle "  a\tb " = "a b" := by decide
example : normalizeTitle "title" = "title" := by decide

/-! ## Model of the effective-TLD+1 capability (external collaborator) -/

/-- Split a character list at dots; labels may be empty. -/
def splitDots : List Char → List (List Char)
  | [] => [[]]
  | c :: cs =>
    let r := splitDots cs
    if c = '.' then [] :: r
    else
      match r with
      | l :: ls => (c :: l) :: ls
      | [] => [[c]]

/-- Model of the external effective-TLD+1 capability
(`golang.org/x/net/publicsuffix.EffectiveTLDPlusOne`), specialised to the
simple rule that the public suffix is the final dot-separated label (true
of the plain generic TLDs the format's hosts use): the registrable domain
is the last two labels; hosts with fewer than two labels or an empty label
fail, as the library fails on bare TLDs, the empty host and stray dots. -/
def effectiveTLDPlusOne (host : String) : Except GoErr String :=
  let labels := splitDots host.toList
  if labels.length < 2 ∨ labels.any (fun l => l.isEmpty) then
    .error (.etldError host)
  else
    match labels.reverse with
    | tld :: dom :: _ => .ok (String.mk (dom ++ '.' :: tld))
    | _ => .error (.etldError host)

example : effectiveTLDPlusOne "sub.example.com" = .ok "example.com" := by decide
example : effectiveTLDPlusOne "example.com" = .ok "example.com" := by decide
example : effectiveTLDPlusOne "localhost" = .error (.etldError "localhost") := by decide
example : effectiveTLDPlusOne "" = .error (.etldError "") := by decide

/-! ## The visit codec (analysis_export.go) -/

/-- A page visit in browsing history (export.go).  The visit time is in
UTC, in nanoseconds since the Unix epoch. -/
structure Visit where
  URL : String
  VisitTime : Int
  Transition : PageTransition
  PageTitle : String
deriving DecidableEq, Repr

/-- The reader state the decode path touches: the 1-based record counter,
the learned timezone offset `tz` in seconds, and the export time (instant
`time` in nanoseconds, with `timeLoc` the fixed-zone offset attached by
`In`). -/
structure Reader where
  record : Nat
  tz : Int
  time : Int
  timeLoc : Int
deriving DecidableEq, Repr

/-- The writer state the encode path reads: the fixed output location as a
zone offset in seconds east of UTC. -/
structure Writer where
  loc : Int
deriving DecidableEq, Repr

theorem tmod_zero_iff_dvd (a b : Int) : a.tmod b = 0 ↔ b ∣ a :=
  ⟨Int.dvd_of_tmod_eq_zero, Int.tmod_eq_zero_of_dvd⟩

theorem tdiv_eq_ediv_of_dvd (a b : Int) (h : b ∣ a) (hb : b ≠ 0) :
    a.tdiv b = a / b := by
  obtain ⟨k, rfl⟩ := h
  rw [Int.mul_tdiv_cancel_left _ hb, Int.mul_ediv_cancel_left _ hb]

/-- Model of `parseTimes` (analysis_export.go): resolve the millisecond
epoch column, the local-time column and the weekday column into the instant
and the timezone offset, validating their mutual consistency.  As in the
source, the error of the local-time `time.Parse` is assigned to `err` but
never checked, so the zero time value stands in when that parse fails; the
`%` and `/` on the duration are Go's truncated `tmod` and `tdiv`.
This is the weekday tail: parse the day-of-week column and require it to
equal the weekday computed from the (possibly zero-time) local value. -/
def parseTimesWeekday (localT diff : Int) (weekday : String) (msec : Int) :
    Except GoErr (Int × Int) :=
  let offset := diff.tdiv 1000000000
  match goAtoi weekday with
  | .error e => .error e
  | .ok day =>
    if goWeekday localT ≠ day then .error (.weekdayMismatch day (goWeekday localT))
    else .ok (msec, offset)

/-- Front of `parseTimes`: millisecond column, the unchecked local-time
parse, the whole-seconds test on the difference; the weekday tail follows
in `parseTimesWeekday`. -/
def parseTimes (timeMsec timeLocal weekday : String) : Except GoErr (Int × Int) :=
  match timefmtParse timeMsec with
  | .error e => .error e
  | .ok msec =>
    let localT := (goTimeParse timeLocal).getD goZeroTime
    let diff := goSub (goTruncMilli msec) localT
    if diff.tmod 1000000000 ≠ 0 then .error (.fractionalDiff diff)
    else parseTimesWeekday localT diff weekday msec

/-- Host part of `checkURL`: with a non-empty host column, parse the URL and
require its hostname to match, tolerating a mismatch when the URL path
contains an `@` (the upstream `extractHost` defect the format preserves). -/
def checkURLHost (rawURL host : String) : Except GoErr Unit :=
  if host = "" then .ok ()
  else
    match urlParse rawURL with
    | .error e => .error e
    | .ok u =>
      if u.hostname ≠ host then
        if u.path.toList.contains '@' = false then
          .error (.hostMismatch host u.hostname)
        else .ok ()
      else .ok ()

/-- Domain part of `checkURL`: with a non-empty domain column, require it to
equal the effective TLD+1 of the host column. -/
def checkURLDomain (host domain : String) : Except GoErr Unit :=
  if domain = "" then .ok ()
  else
    match effectiveTLDPlusOne host with
    | .error e => .error e
    | .ok tld1 =>
      if tld1 ≠ domain then .error (.domainMismatch domain tld1) else .ok ()

/-- Model of `checkURL` (analysis_export.go): the host check, then the
domain check. -/
def checkURL (rawURL host domain : String) : Except GoErr Unit :=
  match checkURLHost rawURL host with
  | .error e => .error e
  | .ok () => checkURLDomain host domain

/-- Model of `readAnalysisVisit` (analysis_export.go): check the URL
columns, resolve the times, then on the first record adopt the offset into
the session (shifting the export time into the learned zone) and otherwise
require the offset to equal the learned one; finally decode the transition
token and build the `Visit` with the normalized title.  Returns the updated
receiver alongside the result. -/
def readAnalysisVisit (r : Reader)
    (rawURL host domain timeMsec timeLocal weekday transition title : String) :
    Reader × Except GoErr Visit :=
  match checkURL rawURL host domain with
  | .error e => (r, .error e)
  | .ok () =>
    match parseTimes timeMsec timeLocal weekday with
    | .error e => (r, .error e)
    | .ok (t, offset) =>
      if r.record = 1 then
        let r2 : Reader := { r with
          time := r.time - offset * 1000000000, timeLoc := offset, tz := offset }
        match pageTransitionFromString transition with
        | .error e => (r2, .error e)
        | .ok typ => (r2, .ok ⟨rawURL, t, typ, normalizeTitle title⟩)
      else if offset ≠ r.tz then
        (r, .error (.timezoneDrift offset r.tz))
      else
        match pageTransitionFromString transition with
        | .error e => (r, .error e)
        | .ok typ => (r, .ok ⟨rawURL, t, typ, normalizeTitle title⟩)

/-- Model of `writeAnalysisVisit` (analysis_export.go): parse the stored
URL, derive the host and (when the host has a dot) the effective TLD+1,
shift the visit time into the writer's location, and emit the eight
columns. -/
def writeAnalysisVisit (w : Writer) (v : Visit) : Except GoErr (List String) :=
  match urlParse v.URL with
  | .error e => .error e
  | .ok u =>
    let host := u.hostname
    match (if host.toList.contains '.' then effectiveTLDPlusOne host
           else .ok "") with
    | .error e => .error e
    | .ok tld1 =>
      let localT := v.VisitTime + w.loc * 1000000000
      .ok [v.URL, host, tld1, timefmtFormat v.VisitTime, goFormatLocal localT,
           itoa (goWeekday localT), v.Transition.str, v.PageTitle]

/-- The eight columns of one analysis-export record. -/
structure RecordFields where
  url : String
  host : String
  domain : String
  timeMsec : String
  timeLocal : String
  weekday : String
  transition : String
  title : String
deriving DecidableEq, Repr

/-- Modelled from the spec: one decode call of the session driver.  The
record counter lives in the reader loop (`reader.go`, not under `src/`);
per the spec's session state it starts at 0 and is incremented once per
record before the visit is read, so `readAnalysisVisit` sees `record = 1`
on the first record. -/
def decodeStep (r : Reader) (f : RecordFields) : Reader × Except GoErr Visit :=
  readAnalysisVisit { r with record := r.record + 1 }
    f.url f.host f.domain f.timeMsec f.timeLocal f.weekday f.transition f.title

/-- Decode a sequence of records in order, stopping at the first failure:
the final state, the visits produced before the failure, and the failure if
any. -/
def decodeSeq (r : Reader) : List RecordFields → Reader × List Visit × Option GoErr
  | [] => (r, [], none)
  | f :: fs =>
    match decodeStep r f with
    | (r2, .error e) => (r2, [], some e)
    | (r2, .ok v) =>
      let rest := decodeSeq r2 fs
      (rest.1, v :: rest.2.1, rest.2.2)

example : parseTimes "0" "1970-01-01 00:00:00.000" "4" = .ok (0, 0) := by decide
example : parseTimes "1623060000000" "2021-06-07 10:00:00.000" "1" =
    .ok (1623060000000000000, 0) := by decide
example : checkURL "https://example.com/" "" "" = .ok () := by decide

/-! ## Claims -/

/-- C4 counterexample: a URL that `net/url` rejects (it begins with a
colon, the missing-protocol-scheme error) passes `checkURL` untouched when
the host and domain columns are both blank, because the URL is only parsed
under a non-empty host column. -/
theorem checkURL_accepts_unparseable_url_with_blank_host :
    urlParse ":" = .error .urlMissingScheme ∧ checkURL ":" "" "" = .ok () := by
  constructor
  · rfl
  · rfl

/-- C4 (amended): for every record with a non-empty host column whose URL
column is not parseable, `checkURL` fails with the parse error; with a
blank host column the URL is never parsed, so no URL parse failure can
surface there. -/
theorem checkURL_fails_on_unparseable_url_nonempty_host
    (rawURL host domain : String) (e : GoErr)
    (hh : host ≠ "") (hp : urlParse rawURL = .error e) :
    checkURL rawURL host domain = .error e := by
  unfold checkURL checkURLHost
  rw [if_neg hh, hp]

/-- C4 witness: the amended theorem at the colon URL with host column
`"x"`. -/
theorem checkURL_fails_on_unparseable_url_witness :
    checkURL ":" "x" "" = .error .urlMissingScheme :=
  checkURL_fails_on_unparseable_url_nonempty_host ":" "x" "" .urlMissingScheme
    (by decide) (by decide)

/-- C5: with a non-empty host column and a parseable URL, the host check of
`checkURL` (the domain column blank, so only the host comparison runs)
succeeds exactly when the parsed URL's hostname equals the host column or
the URL's path contains an `@` character (the tolerated upstream
`extractHost` defect). -/
theorem checkURL_host_comparison (rawURL host : String) (u : GoURL)
    (hh : host ≠ "") (hp : urlParse rawURL = .ok u) :
    checkURL rawURL host "" = .ok () ↔
      (u.hostname = host ∨ u.path.toList.contains '@' = true) := by
  unfold checkURL checkURLHost checkURLDomain
  rw [if_neg hh, hp]
  by_cases he : u.hostname = host
  · simp [he]
  · by_cases hat : u.path.toList.contains '@' = true
    · have hat2 : '@' ∈ u.path.data := by simpa using hat
      simp [he, hat, hat2]
    · simp only [Bool.not_eq_true] at hat
      have hat2 : ¬ ('@' ∈ u.path.data) := by simpa using hat
      simp [he, hat, hat2]

/-- C5 witness: the web-archive save URL wrapping a profile link passes
with host column `"user"` (its path contains an `@`), while the same host
column fails against the same URL with an `@`-free path. -/
theorem checkURL_host_comparison_witness :
    checkURL "https://web.archive.org/save/https://medium.com/@user/article"
      "user" "" = .ok () ∧
    checkURL "https://web.archive.org/save/article" "user" "" ≠ .ok () := by
  constructor
  · exact (checkURL_host_comparison _ "user"
      ⟨"web.archive.org", "/save/https://medium.com/@user/article"⟩
      (by decide) (by decide)).mpr (Or.inr (by decide))
  · intro hc
    rcases (checkURL_host_comparison _ "user" ⟨"web.archive.org", "/save/article"⟩
        (by decide) (by decide)).mp hc with h | h
    · exact absurd h (by decide)
    · exact absurd h (by decide)

/-- C3: the source never checks the error of the local-time `time.Parse`
(the `err` assigned on line 90 of analysis_export.go is dead), so a record
whose local-time column is unparseable is not rejected as a malformed
field: the zero time value silently stands in.  On this record the
difference against the zero time is a whole number of seconds and the
weekday column matches the zero time's Monday, so `parseTimes` succeeds
and `readAnalysisVisit` produces a `Visit`; and even on an ordinary record
the failure that does surface is the fractional-difference consistency
error, not a malformed-field error. -/
theorem parseTimes_accepts_malformed_local_time :
    goTimeParse "bogus" = none ∧
    parseTimes "-62135596800000" "bogus" "1" = .ok (-62135596800000000000, 0) ∧
    readAnalysisVisit ⟨1, 0, 0, 0⟩ "https://example.com/" "" ""
      "-62135596800000" "bogus" "1" "link" "x" =
      (⟨1, 0, 0, 0⟩, .ok ⟨"https://example.com/", -62135596800000000000, .link, "x"⟩) ∧
    parseTimes "0" "bogus" "4" = .error (.fractionalDiff 9223372036854775807) := by
  refine ⟨rfl, by decide, by decide, by decide⟩

/-- C9: a call of `readAnalysisVisit` on a record other than the first
(record counter not 1) returns the receiver unchanged — in particular the
learned timezone offset and the export time are untouched — whether it
yields a visit or an error. -/
theorem readAnalysisVisit_frame (r : Reader)
    (rawURL host domain timeMsec timeLocal weekday transition title : String)
    (h : r.record ≠ 1) :
    (readAnalysisVisit r rawURL host domain timeMsec timeLocal weekday
      transition title).1 = r := by
  unfold readAnalysisVisit
  cases hc : checkURL rawURL host domain with
  | error e => rfl
  | ok un =>
    cases un
    cases hp : parseTimes timeMsec timeLocal weekday with
    | error e => rfl
    | ok p =>
      obtain ⟨t, offset⟩ := p
      simp only [if_neg h]
      by_cases hoff : offset ≠ r.tz
      · rw [if_pos hoff]
      · rw [if_neg hoff]
        cases htr : pageTransitionFromString transition <;> rfl

/-- C9 witness: a second-record call (counter 2) leaves the session state
untouched. -/
theorem readAnalysisVisit_frame_witness :
    (2 : Nat) ≠ 1 ∧
    (readAnalysisVisit ⟨2, 5, 100, 0⟩ "x" "" "" "0" "" "4" "link" "").1 =
      ⟨2, 5, 100, 0⟩ :=
  ⟨by decide, readAnalysisVisit_frame ⟨2, 5, 100, 0⟩ "x" "" "" "0" "" "4" "link" ""
    (by decide)⟩

/-- C10: on the first record of a session, the learned offset is adopted
and the export time shifted before the transition token is validated: a
first record whose URL and time columns are consistent but whose transition
token is unknown yields an error while the session state has already been
mutated (the offset became -3600 and the export time moved by an hour,
though the call failed). -/
theorem readAnalysisVisit_mutates_before_transition_check :
    readAnalysisVisit ⟨1, 99, 1000000000000, 0⟩ "https://example.com/" "" ""
      "0" "1970-01-01 01:00:00.000" "4" "bogus" "" =
      (⟨1, -3600, 4600000000000, -3600⟩, .error (.unknownTransition "bogus")) ∧
    (-3600 : Int) ≠ 99 ∧ (4600000000000 : Int) ≠ 1000000000000 := by
  refine ⟨by decide, by decide, by decide⟩

theorem goSub_exact (t u : Int) (h : (t - u).natAbs ≤ 9223372036854775807) :
    goSub t u = t - u := by
  unfold goSub
  split_ifs <;> omega

/-- Equation for `parseTimes` once the millisecond column is known to
parse. -/
theorem parseTimes_eq_of (tm tl wd : String) (msec : Int)
    (hm : timefmtParse tm = .ok msec) :
    parseTimes tm tl wd =
      (let localT := (goTimeParse tl).getD goZeroTime
       let diff := goSub (goTruncMilli msec) localT
       if diff.tmod 1000000000 ≠ 0 then .error (.fractionalDiff diff)
       else parseTimesWeekday localT diff wd msec) := by
  unfold parseTimes
  rw [hm]

theorem parseTimesWeekday_err (localT diff : Int) (wd : String) (msec : Int)
    (e : GoErr) (ha : goAtoi wd = .error e) :
    parseTimesWeekday localT diff wd msec = .error e := by
  unfold parseTimesWeekday
  rw [ha]

theorem parseTimesWeekday_ok (localT diff : Int) (wd : String) (msec day : Int)
    (ha : goAtoi wd = .ok day) :
    parseTimesWeekday localT diff wd msec =
      (if goWeekday localT ≠ day then .error (.weekdayMismatch day (goWeekday localT))
       else .ok (msec, diff.tdiv 1000000000)) := by
  unfold parseTimesWeekday
  rw [ha]

/-- C6: once both time columns parse and the difference of the truncated
millisecond instant and the local time is representable as a Go duration
(the claim speaks of the fields differing "by a duration"), a difference
that is not a whole number of seconds makes `parseTimes` fail with the
fractional-difference error, and when it is a whole number of seconds that
number is exactly the offset `parseTimes` returns on success. -/
theorem parseTimes_fractional_offset (timeMsec timeLocal weekday : String)
    (msec l : Int)
    (hm : timefmtParse timeMsec = .ok msec)
    (hl : goTimeParse timeLocal = some l)
    (hrange : (goTruncMilli msec - l).natAbs ≤ 9223372036854775807) :
    (¬ ((1000000000 : Int) ∣ (goTruncMilli msec - l)) →
      parseTimes timeMsec timeLocal weekday =
        .error (.fractionalDiff (goTruncMilli msec - l))) ∧
    (((1000000000 : Int) ∣ (goTruncMilli msec - l)) →
      ∀ t off, parseTimes timeMsec timeLocal weekday = .ok (t, off) →
        t = msec ∧ off = (goTruncMilli msec - l) / 1000000000) := by
  rw [parseTimes_eq_of timeMsec timeLocal weekday msec hm]
  rw [hl]
  simp only [Option.getD_some]
  rw [goSub_exact _ _ hrange]
  constructor
  · intro hnd
    rw [if_pos (by rw [Ne, tmod_zero_iff_dvd]; exact hnd)]
  · intro hd t off hok
    rw [if_neg (by rw [Ne, tmod_zero_iff_dvd]; simp [hd])] at hok
    cases ha : goAtoi weekday with
    | error e => rw [parseTimesWeekday_err _ _ _ _ e ha] at hok; cases hok
    | ok day =>
      rw [parseTimesWeekday_ok _ _ _ _ day ha] at hok
      by_cases hwk : goWeekday l ≠ day
      · rw [if_pos hwk] at hok; cases hok
      · rw [if_neg hwk] at hok
        have h1 := Except.ok.inj hok
        have h2 : msec = t := congrArg Prod.fst h1
        have h3 : (goTruncMilli msec - l).tdiv 1000000000 = off :=
          congrArg Prod.snd h1
        refine ⟨h2.symm, ?_⟩
        rw [← h3, tdiv_eq_ediv_of_dvd _ _ hd (by norm_num)]

/-- C6 witness: a half-second difference is rejected with the
fractional-difference error, and a whole-hour difference is returned as
the 3600-second offset. -/
theorem parseTimes_fractional_offset_witness :
    parseTimes "0" "1970-01-01 00:00:00.500" "4" =
      .error (.fractionalDiff (-500000000)) ∧
    ((3600 : Int) = (goTruncMilli 3600000000000 - 0) / 1000000000 ∧
      parseTimes "3600000" "1970-01-01 00:00:00.000" "4" =
        .ok (3600000000000, 3600)) := by
  refine ⟨?_, ?_, by decide⟩
  · exact (parseTimes_fractional_offset "0" "1970-01-01 00:00:00.500" "4"
      0 500000000 (by decide) (by decide) (by decide)).1 (by decide)
  · have h := (parseTimes_fractional_offset "3600000" "1970-01-01 00:00:00.000" "4"
      3600000000000 0 (by decide) (by decide) (by decide)).2 (by decide)
      3600000000000 3600 (by decide)
    exact h.2

/-- Weekday values are always between 0 and 6. -/
theorem goWeekday_range (t : Int) : 0 ≤ goWeekday t ∧ goWeekday t ≤ 6 := by
  unfold goWeekday
  omega

/-- C7: once both time columns parse and their difference passes the
whole-seconds check, `parseTimes` succeeds exactly when the weekday column
parses as an integer equal to the weekday computed from the local time
(0 = Sunday); in particular a non-numeric column, an integer outside 0..6
(the computed weekday always lies in 0..6), or a disagreeing integer all
make it fail. -/
theorem parseTimes_weekday_check (timeMsec timeLocal weekday : String)
    (msec l : Int)
    (hm : timefmtParse timeMsec = .ok msec)
    (hl : goTimeParse timeLocal = some l)
    (hdvd : (goSub (goTruncMilli msec) l).tmod 1000000000 = 0) :
    ((∃ t off, parseTimes timeMsec timeLocal weekday = .ok (t, off)) ↔
      goAtoi weekday = .ok (goWeekday l)) ∧
    (∀ d, goAtoi weekday = .ok d → (d < 0 ∨ 6 < d) →
      ¬ ∃ t off, parseTimes timeMsec timeLocal weekday = .ok (t, off)) := by
  have hmain : (∃ t off, parseTimes timeMsec timeLocal weekday = .ok (t, off)) ↔
      goAtoi weekday = .ok (goWeekday l) := by
    rw [parseTimes_eq_of timeMsec timeLocal weekday msec hm]
    rw [hl]
    simp only [Option.getD_some]
    rw [if_neg (by simp [hdvd])]
    cases ha : goAtoi weekday with
    | error e =>
      rw [parseTimesWeekday_err _ _ _ _ e ha]
      constructor
      · rintro ⟨t, off, hok⟩
        cases hok
      · intro h
        cases h
    | ok day =>
      rw [parseTimesWeekday_ok _ _ _ _ day ha]
      by_cases hwk : goWeekday l ≠ day
      · rw [if_pos hwk]
        constructor
        · rintro ⟨t, off, hok⟩
          cases hok
        · intro h
          exact absurd (Except.ok.inj h).symm hwk
      · rw [if_neg hwk]
        simp only [not_not] at hwk
        constructor
        · intro _
          rw [hwk]
        · intro _
          exact ⟨msec, _, rfl⟩
  refine ⟨hmain, ?_⟩
  intro d hd hout hex
  have := hmain.mp hex
  rw [hd] at this
  have hde := Except.ok.inj this
  have := goWeekday_range l
  omega

/-- C7 witness: the spec's example — 2021-06-07 is a Monday, so weekday
column "0" (Sunday) is rejected and "1" is accepted. -/
theorem parseTimes_weekday_check_witness :
    (¬ ∃ t off, parseTimes "1623060000000" "2021-06-07 10:00:00.000" "0" =
      .ok (t, off)) ∧
    (∃ t off, parseTimes "1623060000000" "2021-06-07 10:00:00.000" "1" =
      .ok (t, off)) := by
  constructor
  · intro hex
    have h := (parseTimes_weekday_check "1623060000000" "2021-06-07 10:00:00.000"
      "0" 1623060000000000000 1623060000000000000
      (by decide) (by decide) (by decide)).1.mp hex
    exact absurd h (by decide)
  · exact (parseTimes_weekday_check "1623060000000" "2021-06-07 10:00:00.000"
      "1" 1623060000000000000 1623060000000000000
      (by decide) (by decide) (by decide)).1.mpr (by decide)

/-- Equation for `writeAnalysisVisit` once the stored URL is known to
parse. -/
theorem writeAnalysisVisit_eq_of (w : Writer) (v : Visit) (u : GoURL)
    (hp : urlParse v.URL = .ok u) :
    writeAnalysisVisit w v =
      (match (if u.hostname.toList.contains '.' then effectiveTLDPlusOne u.hostname
              else .ok "") with
       | .error e => .error e
       | .ok tld1 =>
         .ok [v.URL, u.hostname, tld1, timefmtFormat v.VisitTime,
              goFormatLocal (v.VisitTime + w.loc * 1000000000),
              itoa (goWeekday (v.VisitTime + w.loc * 1000000000)),
              v.Transition.str, v.PageTitle]) := by
  unfold writeAnalysisVisit
  rw [hp]

/-- C8: for every visit whose stored URL parses, the encoder emits a blank
domain column when the URL's hostname has no dot, and emits the effective
TLD+1 of the hostname as the domain column when it has one (and the
effective TLD+1 is defined). -/
theorem writeAnalysisVisit_domain (w : Writer) (v : Visit) (u : GoURL)
    (hp : urlParse v.URL = .ok u) :
    (u.hostname.toList.contains '.' = false →
      writeAnalysisVisit w v =
        .ok [v.URL, u.hostname, "", timefmtFormat v.VisitTime,
          goFormatLocal (v.VisitTime + w.loc * 1000000000),
          itoa (goWeekday (v.VisitTime + w.loc * 1000000000)),
          v.Transition.str, v.PageTitle]) ∧
    (∀ tld1, u.hostname.toList.contains '.' = true →
      effectiveTLDPlusOne u.hostname = .ok tld1 →
      writeAnalysisVisit w v =
        .ok [v.URL, u.hostname, tld1, timefmtFormat v.VisitTime,
          goFormatLocal (v.VisitTime + w.loc * 1000000000),
          itoa (goWeekday (v.VisitTime + w.loc * 1000000000)),
          v.Transition.str, v.PageTitle]) := by
  constructor
  · intro hdot
    rw [writeAnalysisVisit_eq_of w v u hp, hdot]
    rfl
  · intro tld1 hdot htld
    rw [writeAnalysisVisit_eq_of w v u hp, hdot, if_pos rfl, htld]

/-- C8 witness: a `localhost` URL encodes with a blank domain column, while
a `sub.example.com` URL encodes with domain `example.com`. -/
theorem writeAnalysisVisit_domain_witness :
    writeAnalysisVisit ⟨0⟩ ⟨"http://localhost/x", 0, .link, "t"⟩ =
      .ok ["http://localhost/x", "localhost", "", "0.000000",
        "1970-01-01 00:00:00.000", "4", "link", "t"] ∧
    writeAnalysisVisit ⟨0⟩ ⟨"https://sub.example.com/", 0, .link, "t"⟩ =
      .ok ["https://sub.example.com/", "sub.example.com", "example.com", "0.000000",
        "1970-01-01 00:00:00.000", "4", "link", "t"] := by
  constructor
  · have h := (writeAnalysisVisit_domain ⟨0⟩ ⟨"http://localhost/x", 0, .link, "t"⟩
      ⟨"localhost", "/x"⟩ (by decide)).1 (by decide)
    rw [h]
    decide
  · have h := (writeAnalysisVisit_domain ⟨0⟩ ⟨"https://sub.example.com/", 0, .link, "t"⟩
      ⟨"sub.example.com", "/"⟩ (by decide)).2 "example.com" (by decide) (by decide)
    rw [h]
    decide

/-- A saturated `Sub` result is never a whole number of seconds, so a
difference that passes the whole-seconds check was exact. -/
theorem goSub_of_tmod_sec (t u : Int) (h : (goSub t u).tmod 1000000000 = 0) :
    goSub t u = t - u := by
  unfold goSub at h ⊢
  split_ifs at h ⊢ with h1 h2
  · exact absurd h (by decide)
  · exact absurd h (by decide)
  · rfl

/-- Inversion of a successful `parseTimes` when the local-time column
parses: the millisecond column parsed to the returned instant, the
truncated instant sits exactly `offset` seconds from the local value, and
the weekday column parsed to the local value's weekday. -/
theorem parseTimes_ok_inv (tm tl wd : String) (t off l : Int)
    (hl : goTimeParse tl = some l)
    (hok : parseTimes tm tl wd = .ok (t, off)) :
    timefmtParse tm = .ok t ∧ goTruncMilli t = l + off * 1000000000 ∧
      goAtoi wd = .ok (goWeekday l) := by
  cases hm : timefmtParse tm with
  | error e =>
    unfold parseTimes at hok
    rw [hm] at hok
    exact absurd hok (by simp)
  | ok msec =>
    rw [parseTimes_eq_of tm tl wd msec hm, hl] at hok
    simp only [Option.getD_some] at hok
    by_cases hfr : (goSub (goTruncMilli msec) l).tmod 1000000000 ≠ 0
    · rw [if_pos hfr] at hok
      cases hok
    · rw [if_neg hfr] at hok
      simp only [not_not] at hfr
      have hsub := goSub_of_tmod_sec (goTruncMilli msec) l hfr
      cases ha : goAtoi wd with
      | error e =>
        rw [parseTimesWeekday_err _ _ _ _ e ha] at hok
        cases hok
      | ok day =>
        rw [parseTimesWeekday_ok _ _ _ _ day ha] at hok
        by_cases hwk : goWeekday l ≠ day
        · rw [if_pos hwk] at hok
          cases hok
        · rw [if_neg hwk] at hok
          simp only [not_not] at hwk
          have h1 := Except.ok.inj hok
          have h2 : msec = t := congrArg Prod.fst h1
          have h3 : (goSub (goTruncMilli msec) l).tdiv 1000000000 = off :=
            congrArg Prod.snd h1
          subst h2
          refine ⟨rfl, ?_, by rw [hwk]⟩
          rw [hsub] at hfr h3
          have hdvd : (1000000000 : Int) ∣ (goTruncMilli msec - l) :=
            (tmod_zero_iff_dvd _ _).mp hfr
          rw [tdiv_eq_ediv_of_dvd _ _ hdvd (by norm_num)] at h3
          obtain ⟨k, hk⟩ := hdvd
          rw [hk, Int.mul_ediv_cancel_left _ (by norm_num)] at h3
          omega

/-- Equation for `readAnalysisVisit` once the URL checks and the time
resolution are known to pass. -/
theorem readAnalysisVisit_of_checks (r : Reader)
    (rawURL host domain timeMsec timeLocal weekday transition title : String)
    (t off : Int)
    (hchk : checkURL rawURL host domain = .ok ())
    (hpt : parseTimes timeMsec timeLocal weekday = .ok (t, off)) :
    readAnalysisVisit r rawURL host domain timeMsec timeLocal weekday
        transition title =
      (if r.record = 1 then
        match pageTransitionFromString transition with
        | .error e =>
          ({ r with time := r.time - off * 1000000000, timeLoc := off, tz := off },
           .error e)
        | .ok typ =>
          ({ r with time := r.time - off * 1000000000, timeLoc := off, tz := off },
           .ok ⟨rawURL, t, typ, normalizeTitle title⟩)
      else if off ≠ r.tz then (r, .error (.timezoneDrift off r.tz))
      else
        match pageTransitionFromString transition with
        | .error e => (r, .error e)
        | .ok typ => (r, .ok ⟨rawURL, t, typ, normalizeTitle title⟩)) := by
  unfold readAnalysisVisit
  rw [hchk, hpt]

/-- A first record whose checks pass: the offset is adopted, the export
time shifted, and the visit is produced. -/
theorem decodeStep_first_ok (r : Reader) (f : RecordFields) (t off : Int)
    (p : PageTransition)
    (hfirst : r.record = 0)
    (hchk : checkURL f.url f.host f.domain = .ok ())
    (hpt : parseTimes f.timeMsec f.timeLocal f.weekday = .ok (t, off))
    (htr : pageTransitionFromString f.transition = .ok p) :
    decodeStep r f =
      ({ r with
         record := r.record + 1
         tz := off
         time := r.time - off * 1000000000
         timeLoc := off },
       .ok ⟨f.url, t, p, normalizeTitle f.title⟩) := by
  unfold decodeStep
  rw [readAnalysisVisit_of_checks _ _ _ _ _ _ _ _ _ t off hchk hpt]
  rw [if_pos (show ({ r with record := r.record + 1 } : Reader).record = 1 from by
    show r.record + 1 = 1
    omega)]
  rw [htr]

/-- A later record whose checks pass and whose offset equals the learned
one: only the record counter moves. -/
theorem decodeStep_later_ok (r : Reader) (f : RecordFields) (t off : Int)
    (p : PageTransition)
    (hlater : r.record ≠ 0)
    (hchk : checkURL f.url f.host f.domain = .ok ())
    (hpt : parseTimes f.timeMsec f.timeLocal f.weekday = .ok (t, off))
    (hoff : off = r.tz)
    (htr : pageTransitionFromString f.transition = .ok p) :
    decodeStep r f =
      ({ r with record := r.record + 1 },
       .ok ⟨f.url, t, p, normalizeTitle f.title⟩) := by
  unfold decodeStep
  rw [readAnalysisVisit_of_checks _ _ _ _ _ _ _ _ _ t off hchk hpt]
  rw [if_neg (show ¬ ({ r with record := r.record + 1 } : Reader).record = 1 from by
    show ¬ (r.record + 1 = 1)
    omega)]
  rw [if_neg (show ¬ (off ≠ ({ r with record := r.record + 1 } : Reader).tz) from by
    show ¬ (off ≠ r.tz)
    simp [hoff])]
  rw [htr]

/-- A later record whose resolved offset differs from the learned one:
the timezone-drift error. -/
theorem decodeStep_later_drift (r : Reader) (f : RecordFields) (t off : Int)
    (hlater : r.record ≠ 0)
    (hchk : checkURL f.url f.host f.domain = .ok ())
    (hpt : parseTimes f.timeMsec f.timeLocal f.weekday = .ok (t, off))
    (hoff : off ≠ r.tz) :
    decodeStep r f =
      ({ r with record := r.record + 1 }, .error (.timezoneDrift off r.tz)) := by
  unfold decodeStep
  rw [readAnalysisVisit_of_checks _ _ _ _ _ _ _ _ _ t off hchk hpt]
  rw [if_neg (show ¬ ({ r with record := r.record + 1 } : Reader).record = 1 from by
    show ¬ (r.record + 1 = 1)
    omega)]
  rw [if_pos (show off ≠ ({ r with record := r.record + 1 } : Reader).tz from hoff)]

theorem decodeSeq_cons_ok (r : Reader) (f : RecordFields) (fs : List RecordFields)
    (r2 : Reader) (v : Visit) (h : decodeStep r f = (r2, .ok v)) :
    decodeSeq r (f :: fs) =
      ((decodeSeq r2 fs).1, v :: (decodeSeq r2 fs).2.1, (decodeSeq r2 fs).2.2) := by
  simp only [decodeSeq]
  rw [h]

theorem decodeSeq_cons_err (r : Reader) (f : RecordFields) (fs : List RecordFields)
    (r2 : Reader) (e : GoErr) (h : decodeStep r f = (r2, .error e)) :
    decodeSeq r (f :: fs) = (r2, [], some e) := by
  simp only [decodeSeq]
  rw [h]

/-- Once an offset is learned, a stream of records that all resolve to the
same offset decodes without error, producing one visit per record and
leaving the learned offset untouched. -/
theorem decodeSeq_steady (O : Int) (fs : List RecordFields) :
    ∀ r : Reader, r.tz = O → r.record ≠ 0 →
    (∀ f ∈ fs, checkURL f.url f.host f.domain = .ok () ∧
      (∃ t, parseTimes f.timeMsec f.timeLocal f.weekday = .ok (t, O)) ∧
      (∃ p, pageTransitionFromString f.transition = .ok p)) →
    (decodeSeq r fs).2.2 = none ∧
    (decodeSeq r fs).2.1.length = fs.length ∧
    (decodeSeq r fs).1.tz = O := by
  induction fs with
  | nil =>
    intro r htz hrec hall
    exact ⟨rfl, rfl, htz⟩
  | cons f fs ih =>
    intro r htz hrec hall
    obtain ⟨hchk, ⟨t, hpt⟩, ⟨p, htr⟩⟩ := hall f (List.mem_cons_self f fs)
    have hstep := decodeStep_later_ok r f t O p hrec hchk hpt htz.symm htr
    have hcons := decodeSeq_cons_ok r f fs _ _ hstep
    have ihr := ih { r with record := r.record + 1 }
      (show r.tz = O from htz)
      (show r.record + 1 ≠ 0 from by omega)
      (fun g hg => hall g (List.mem_cons_of_mem f hg))
    rw [hcons]
    exact ⟨ihr.1, by simp [ihr.2.1], ihr.2.2⟩

/-- C2: offset learning is monotonic-once.  With a fresh session (record
counter 0) and a first record whose checks pass with resolved offset `O`:
(a) any further stream of records that all resolve to the same offset `O`
decodes without error, one visit per record, and the learned offset is
still `O` at the end of the session; (b) whenever both time columns of a
record resolve, its instant sits exactly `offset` seconds from its local
time; (c) if a second record resolves to a different offset `O2`, decoding
fails exactly at record 2 with the timezone-drift error, after producing
record 1's visit, and the learned offset is still `O`. -/
theorem decodeSeq_offset_learning (r0 : Reader) (O : Int) (f1 : RecordFields)
    (t1 : Int) (p1 : PageTransition)
    (hrec : r0.record = 0)
    (hc1 : checkURL f1.url f1.host f1.domain = .ok ())
    (hp1 : parseTimes f1.timeMsec f1.timeLocal f1.weekday = .ok (t1, O))
    (ht1 : pageTransitionFromString f1.transition = .ok p1) :
    (∀ fs, (∀ f ∈ fs, checkURL f.url f.host f.domain = .ok () ∧
        (∃ t, parseTimes f.timeMsec f.timeLocal f.weekday = .ok (t, O)) ∧
        (∃ p, pageTransitionFromString f.transition = .ok p)) →
      (decodeSeq r0 (f1 :: fs)).2.2 = none ∧
      (decodeSeq r0 (f1 :: fs)).2.1.length = fs.length + 1 ∧
      (decodeSeq r0 (f1 :: fs)).1.tz = O) ∧
    (∀ tm tl wd t l, parseTimes tm tl wd = .ok (t, O) →
      goTimeParse tl = some l → goTruncMilli t = l + O * 1000000000) ∧
    (∀ f2 t2 O2, checkURL f2.url f2.host f2.domain = .ok () →
      parseTimes f2.timeMsec f2.timeLocal f2.weekday = .ok (t2, O2) → O2 ≠ O →
      (decodeSeq r0 [f1, f2]).2.1 = [⟨f1.url, t1, p1, normalizeTitle f1.title⟩] ∧
      (decodeSeq r0 [f1, f2]).2.2 = some (.timezoneDrift O2 O) ∧
      (decodeSeq r0 [f1, f2]).1.tz = O) := by
  have hstep1 := decodeStep_first_ok r0 f1 t1 O p1 hrec hc1 hp1 ht1
  refine ⟨?_, ?_, ?_⟩
  · intro fs hfs
    have hcons := decodeSeq_cons_ok r0 f1 fs _ _ hstep1
    have hsteady := decodeSeq_steady O fs
      { r0 with
        record := r0.record + 1
        tz := O
        time := r0.time - O * 1000000000
        timeLoc := O }
      rfl (show r0.record + 1 ≠ 0 from by omega) hfs
    rw [hcons]
    exact ⟨hsteady.1, by simp [hsteady.2.1], hsteady.2.2⟩
  · intro tm tl wd t l hpt hl
    exact (parseTimes_ok_inv tm tl wd t O l hl hpt).2.1
  · intro f2 t2 O2 hc2 hp2 hne
    have hstep2 := decodeStep_later_drift
      { r0 with
        record := r0.record + 1
        tz := O
        time := r0.time - O * 1000000000
        timeLoc := O }
      f2 t2 O2 (show r0.record + 1 ≠ 0 from by omega) hc2 hp2 hne
    have hcons1 := decodeSeq_cons_ok r0 f1 [f2] _ _ hstep1
    have hcons2 := decodeSeq_cons_err
      { r0 with
        record := r0.record + 1
        tz := O
        time := r0.time - O * 1000000000
        timeLoc := O }
      f2 [] _ _ hstep2
    rw [hcons1, hcons2]
    exact ⟨rfl, rfl, rfl⟩

/-- C2 witness: two same-offset records decode cleanly with learned offset
0; replacing record 2's local time by one an hour ahead makes its resolved
offset -3600, and decode stops exactly there with the drift error, keeping
record 1's visit and the learned offset 0. -/
theorem decodeSeq_offset_learning_witness :
    (decodeSeq ⟨0, 99, 0, 0⟩
      [⟨"https://example.com/", "", "", "0", "1970-01-01 00:00:00.000", "4", "link", ""⟩,
       ⟨"https://example.com/", "", "", "1000", "1970-01-01 00:00:01.000", "4", "link", ""⟩]).2.2
      = none ∧
    (decodeSeq ⟨0, 99, 0, 0⟩
      [⟨"https://example.com/", "", "", "0", "1970-01-01 00:00:00.000", "4", "link", ""⟩,
       ⟨"https://example.com/", "", "", "1000", "1970-01-01 00:00:01.000", "4", "link", ""⟩]).1.tz
      = 0 ∧
    (decodeSeq ⟨0, 99, 0, 0⟩
      [⟨"https://example.com/", "", "", "0", "1970-01-01 00:00:00.000", "4", "link", ""⟩,
       ⟨"https://example.com/", "", "", "1000", "1970-01-01 01:00:01.000", "4", "link", ""⟩]).2.1
      = [⟨"https://example.com/", 0, .link, ""⟩] ∧
    (decodeSeq ⟨0, 99, 0, 0⟩
      [⟨"https://example.com/", "", "", "0", "1970-01-01 00:00:00.000", "4", "link", ""⟩,
       ⟨"https://example.com/", "", "", "1000", "1970-01-01 01:00:01.000", "4", "link", ""⟩]).2.2
      = some (.timezoneDrift (-3600) 0) ∧
    (decodeSeq ⟨0, 99, 0, 0⟩
      [⟨"https://example.com/", "", "", "0", "1970-01-01 00:00:00.000", "4", "link", ""⟩,
       ⟨"https://example.com/", "", "", "1000", "1970-01-01 01:00:01.000", "4", "link", ""⟩]).1.tz
      = 0 := by
  have h := decodeSeq_offset_learning ⟨0, 99, 0, 0⟩ 0
    ⟨"https://example.com/", "", "", "0", "1970-01-01 00:00:00.000", "4", "link", ""⟩
    0 .link rfl (by decide) (by decide) (by decide)
  have hsame := h.1
    [⟨"https://example.com/", "", "", "1000", "1970-01-01 00:00:01.000", "4", "link", ""⟩]
    (fun f hf => by
      rw [List.mem_singleton] at hf
      subst hf
      exact ⟨by decide, ⟨1000000000, by decide⟩, ⟨.link, by decide⟩⟩)
  have hdrift := h.2.2
    ⟨"https://example.com/", "", "", "1000", "1970-01-01 01:00:01.000", "4", "link", ""⟩
    1000000000 (-3600) (by decide) (by decide) (by decide)
  refine ⟨hsame.1, hsame.2.2, hdrift.1.trans (by decide), hdrift.2.1, hdrift.2.2⟩

/-- Millisecond truncation commutes with shifting by a whole number of
seconds. -/
theorem goTruncMilli_shift_sec (t loc : Int) :
    goTruncMilli (t + loc * 1000000000) = goTruncMilli t + loc * 1000000000 := by
  unfold goTruncMilli
  omega

/-- Millisecond truncation never crosses a day boundary, so the weekday is
unchanged. -/
theorem goWeekday_truncMilli (t : Int) :
    goWeekday (goTruncMilli t) = goWeekday t := by
  unfold goWeekday goTruncMilli
  omega

/-- `strconv.Atoi` inverts `Itoa` on the single-digit weekday values. -/
theorem goAtoi_itoa_small (d : Int) (h0 : 0 ≤ d) (h1 : d ≤ 6) :
    goAtoi (itoa d) = .ok d := by
  interval_cases d <;> decide

/-- Resolving the three time columns that the encoder emits for instant `t`
with writer location `loc` recovers `t` exactly, with resolved offset
`-loc`. -/
theorem parseTimes_write (t loc : Int)
    (hloc : loc.natAbs ≤ 86400)
    (hday1 : -719162 ≤ (t + loc * 1000000000) / 86400000000000)
    (hday2 : (t + loc * 1000000000) / 86400000000000 ≤ 2932896) :
    parseTimes (timefmtFormat t) (goFormatLocal (t + loc * 1000000000))
      (itoa (goWeekday (t + loc * 1000000000))) = .ok (t, -loc) := by
  have hm := timefmtParse_timefmtFormat t
  have hl := goTimeParse_goFormatLocal (t + loc * 1000000000) hday1 hday2
  rw [parseTimes_eq_of _ _ _ t hm, hl]
  simp only [Option.getD_some]
  rw [goTruncMilli_shift_sec t loc]
  have hsub0 := goSub_exact (goTruncMilli t) (goTruncMilli t + loc * 1000000000)
    (by omega)
  have hsub : goSub (goTruncMilli t) (goTruncMilli t + loc * 1000000000) =
      -(loc * 1000000000) := by
    rw [hsub0]
    ring
  rw [hsub]
  rw [if_neg (show ¬ ((-(loc * 1000000000)).tmod 1000000000 ≠ 0) from
    not_not_intro ((tmod_zero_iff_dvd _ _).mpr ⟨-loc, by ring⟩))]
  rw [parseTimesWeekday_ok _ _ _ _ (goWeekday (t + loc * 1000000000))
    (goAtoi_itoa_small _ (goWeekday_range _).1 (goWeekday_range _).2)]
  have hwk : goWeekday (goTruncMilli t + loc * 1000000000) =
      goWeekday (t + loc * 1000000000) := by
    rw [← goTruncMilli_shift_sec t loc, goWeekday_truncMilli]
  rw [if_neg (not_not_intro hwk)]
  have htdiv : (-(loc * 1000000000)).tdiv 1000000000 = -loc := by
    have hd : (1000000000 : Int) ∣ (-(loc * 1000000000)) := ⟨-loc, by ring⟩
    rw [tdiv_eq_ediv_of_dvd _ _ hd (by norm_num)]
    rw [show (-(loc * 1000000000)) = (-loc) * 1000000000 from by ring,
      Int.mul_ediv_cancel _ (by norm_num)]
  rw [htdiv]

/-- Interpret the eight emitted columns as one record's fields. -/
def recordOfFields : List String → RecordFields
  | [url, host, domain, timeMsec, timeLocal, weekday, transition, title] =>
    ⟨url, host, domain, timeMsec, timeLocal, weekday, transition, title⟩
  | _ => ⟨"", "", "", "", "", "", "", ""⟩

/-- C1: encode-decode roundtrip.  For a visit whose stored URL parses (its
path free of `@`), whose title is already in normalized form, whose writer
location is a sane zone offset and whose local time falls in the layout's
year range, decoding the eight columns the encoder emitted — as the first
record of a fresh session — yields the visit back exactly; in particular
the sub-millisecond fraction of the visit time survives through the
millisecond-epoch column. -/
theorem readAnalysisVisit_roundtrip (v : Visit) (u : GoURL) (loc : Int)
    (r0 : Reader) (fields : List String)
    (hu : urlParse v.URL = .ok u)
    (hat : u.path.toList.contains '@' = false)
    (hloc : loc.natAbs ≤ 86400)
    (hday1 : -719162 ≤ (v.VisitTime + loc * 1000000000) / 86400000000000)
    (hday2 : (v.VisitTime + loc * 1000000000) / 86400000000000 ≤ 2932896)
    (hnorm : normalizeTitle v.PageTitle = v.PageTitle)
    (hrec : r0.record = 0)
    (hw : writeAnalysisVisit ⟨loc⟩ v = .ok fields) :
    (decodeStep r0 (recordOfFields fields)).2 = .ok v := by
  rw [writeAnalysisVisit_eq_of ⟨loc⟩ v u hu] at hw
  cases hdom : (if u.hostname.toList.contains '.' then effectiveTLDPlusOne u.hostname
      else .ok "") with
  | error e =>
    rw [hdom] at hw
    cases hw
  | ok tld1 =>
    rw [hdom] at hw
    have hfields := Except.ok.inj hw
    subst hfields
    have hhost : checkURLHost v.URL u.hostname = .ok () := by
      unfold checkURLHost
      by_cases hh : u.hostname = ""
      · rw [if_pos hh]
      · rw [if_neg hh, hu]
        simp
    have hdomp : checkURLDomain u.hostname tld1 = .ok () := by
      unfold checkURLDomain
      by_cases hd : tld1 = ""
      · rw [if_pos hd]
      · rw [if_neg hd]
        cases hdot : u.hostname.toList.contains '.' with
        | true =>
          rw [hdot] at hdom
          simp only [if_true, eq_self_iff_true, if_pos] at hdom
          rw [hdom]
          simp
        | false =>
          rw [hdot] at hdom
          simp at hdom
          exact absurd hdom.symm hd
    have hchk : checkURL v.URL u.hostname tld1 = .ok () := by
      unfold checkURL
      rw [hhost, hdomp]
    have hpt := parseTimes_write v.VisitTime loc hloc hday1 hday2
    have hstep := decodeStep_first_ok r0
      ⟨v.URL, u.hostname, tld1, timefmtFormat v.VisitTime,
       goFormatLocal (v.VisitTime + loc * 1000000000),
       itoa (goWeekday (v.VisitTime + loc * 1000000000)),
       v.Transition.str, v.PageTitle⟩
      v.VisitTime (-loc) v.Transition hrec hchk hpt
      (pageTransitionFromString_str v.Transition)
    show (decodeStep r0
      ⟨v.URL, u.hostname, tld1, timefmtFormat v.VisitTime,
       goFormatLocal (v.VisitTime + loc * 1000000000),
       itoa (goWeekday (v.VisitTime + loc * 1000000000)),
       v.Transition.str, v.PageTitle⟩).2 = .ok v
    rw [hstep]
    show Except.ok ⟨v.URL, v.VisitTime, v.Transition, normalizeTitle v.PageTitle⟩ =
      Except.ok v
    rw [hnorm]

/-- C1 witness: a visit with sub-millisecond fraction in its time (epoch
123456789 ns = 123.456789 ms) roundtrips through the eight columns with
writer location UTC in a fresh session, the fraction intact. -/
theorem readAnalysisVisit_roundtrip_witness :
    writeAnalysisVisit ⟨0⟩ ⟨"https://sub.example.com/a", 123456789, .link, "t"⟩ =
      .ok ["https://sub.example.com/a", "sub.example.com", "example.com",
        "123.456789", "1970-01-01 00:00:00.123", "4", "link", "t"] ∧
    (decodeStep ⟨0, 5, 7, 0⟩ (recordOfFields
      ["https://sub.example.com/a", "sub.example.com", "example.com",
        "123.456789", "1970-01-01 00:00:00.123", "4", "link", "t"])).2 =
      .ok ⟨"https://sub.example.com/a", 123456789, .link, "t"⟩ := by
  constructor
  · decide
  · exact readAnalysisVisit_roundtrip
      ⟨"https://sub.example.com/a", 123456789, .link, "t"⟩
      ⟨"sub.example.com", "/a"⟩ 0 ⟨0, 5, 7, 0⟩
      ["https://sub.example.com/a", "sub.example.com", "example.com",
        "123.456789", "1970-01-01 00:00:00.123", "4", "link", "t"]
      (by decide) rfl (by norm_num) (by decide) (by decide) (by decide)
      rfl (by decide)
